import Mathlib

/-!
# Verification of the cp437-tools core subsystems

A shallow embedding of the CP437↔UTF-8 codec (`src/libs/public/cp437.rs`),
the SAUCE metadata model, validators, locator/parser
(`src/libs/public/meta.rs`), the metadata serializer
(`src/bins/set-meta/main.rs`), and the ANSI-escape rendering state machine
(`src/libs/internal/process.rs`), together with theorems settling the
specification claims about them.

Bytes are modelled as `Nat` values (callers keep them below 256, mirroring
Rust's `u8`), byte buffers as `List Nat`, and Rust `String`s as `List Char`.
-/

namespace Cp437Tools

/-- The 256-entry CP437 → UTF-8 table (`CP437_TO_UTF8` in `cp437.rs`),
row by row.  Indices 0x0A/0x0D keep their line-ending meaning, 0x1A and
0x1B map to the control codepoints U+001A/U+001B, and 0xFF is U+00A0. -/
def CP437_TO_UTF8 : List Char := [
  Char.ofNat 0x00, Char.ofNat 0x263A, Char.ofNat 0x263B, Char.ofNat 0x2665, Char.ofNat 0x2666, Char.ofNat 0x2663, Char.ofNat 0x2660, Char.ofNat 0x2022,
  Char.ofNat 0x25D8, Char.ofNat 0x25CB, Char.ofNat 0x0A, Char.ofNat 0x2642, Char.ofNat 0x2640, Char.ofNat 0x0D, Char.ofNat 0x266B, Char.ofNat 0x263C,
  Char.ofNat 0x25BA, Char.ofNat 0x25C4, Char.ofNat 0x2195, Char.ofNat 0x203C, Char.ofNat 0xB6, Char.ofNat 0xA7, Char.ofNat 0x25AC, Char.ofNat 0x21A8,
  Char.ofNat 0x2191, Char.ofNat 0x2193, Char.ofNat 0x1A, Char.ofNat 0x1B, Char.ofNat 0x221F, Char.ofNat 0x2194, Char.ofNat 0x25B2, Char.ofNat 0x25BC,
  Char.ofNat 0x20, Char.ofNat 0x21, Char.ofNat 0x22, Char.ofNat 0x23, Char.ofNat 0x24, Char.ofNat 0x25, Char.ofNat 0x26, Char.ofNat 0x27,
  Char.ofNat 0x28, Char.ofNat 0x29, Char.ofNat 0x2A, Char.ofNat 0x2B, Char.ofNat 0x2C, Char.ofNat 0x2D, Char.ofNat 0x2E, Char.ofNat 0x2F,
  Char.ofNat 0x30, Char.ofNat 0x31, Char.ofNat 0x32, Char.ofNat 0x33, Char.ofNat 0x34, Char.ofNat 0x35, Char.ofNat 0x36, Char.ofNat 0x37,
  Char.ofNat 0x38, Char.ofNat 0x39, Char.ofNat 0x3A, Char.ofNat 0x3B, Char.ofNat 0x3C, Char.ofNat 0x3D, Char.ofNat 0x3E, Char.ofNat 0x3F,
  Char.ofNat 0x40, Char.ofNat 0x41, Char.ofNat 0x42, Char.ofNat 0x43, Char.ofNat 0x44, Char.ofNat 0x45, Char.ofNat 0x46, Char.ofNat 0x47,
  Char.ofNat 0x48, Char.ofNat 0x49, Char.ofNat 0x4A, Char.ofNat 0x4B, Char.ofNat 0x4C, Char.ofNat 0x4D, Char.ofNat 0x4E, Char.ofNat 0x4F,
  Char.ofNat 0x50, Char.ofNat 0x51, Char.ofNat 0x52, Char.ofNat 0x53, Char.ofNat 0x54, Char.ofNat 0x55, Char.ofNat 0x56, Char.ofNat 0x57,
  Char.ofNat 0x58, Char.ofNat 0x59, Char.ofNat 0x5A, Char.ofNat 0x5B, Char.ofNat 0x5C, Char.ofNat 0x5D, Char.ofNat 0x5E, Char.ofNat 0x5F,
  Char.ofNat 0x60, Char.ofNat 0x61, Char.ofNat 0x62, Char.ofNat 0x63, Char.ofNat 0x64, Char.ofNat 0x65, Char.ofNat 0x66, Char.ofNat 0x67,
  Char.ofNat 0x68, Char.ofNat 0x69, Char.ofNat 0x6A, Char.ofNat 0x6B, Char.ofNat 0x6C, Char.ofNat 0x6D, Char.ofNat 0x6E, Char.ofNat 0x6F,
  Char.ofNat 0x70, Char.ofNat 0x71, Char.ofNat 0x72, Char.ofNat 0x73, Char.ofNat 0x74, Char.ofNat 0x75, Char.ofNat 0x76, Char.ofNat 0x77,
  Char.ofNat 0x78, Char.ofNat 0x79, Char.ofNat 0x7A, Char.ofNat 0x7B, Char.ofNat 0x7C, Char.ofNat 0x7D, Char.ofNat 0x7E, Char.ofNat 0x2302,
  Char.ofNat 0xC7, Char.ofNat 0xFC, Char.ofNat 0xE9, Char.ofNat 0xE2, Char.ofNat 0xE4, Char.ofNat 0xE0, Char.ofNat 0xE5, Char.ofNat 0xE7,
  Char.ofNat 0xEA, Char.ofNat 0xEB, Char.ofNat 0xE8, Char.ofNat 0xEF, Char.ofNat 0xEE, Char.ofNat 0xEC, Char.ofNat 0xC4, Char.ofNat 0xC5,
  Char.ofNat 0xC9, Char.ofNat 0xE6, Char.ofNat 0xC6, Char.ofNat 0xF4, Char.ofNat 0xF6, Char.ofNat 0xF2, Char.ofNat 0xFB, Char.ofNat 0xF9,
  Char.ofNat 0xFF, Char.ofNat 0xD6, Char.ofNat 0xDC, Char.ofNat 0xA2, Char.ofNat 0xA3, Char.ofNat 0xA5, Char.ofNat 0x20A7, Char.ofNat 0x192,
  Char.ofNat 0xE1, Char.ofNat 0xED, Char.ofNat 0xF3, Char.ofNat 0xFA, Char.ofNat 0xF1, Char.ofNat 0xD1, Char.ofNat 0xAA, Char.ofNat 0xBA,
  Char.ofNat 0xBF, Char.ofNat 0x2310, Char.ofNat 0xAC, Char.ofNat 0xBD, Char.ofNat 0xBC, Char.ofNat 0xA1, Char.ofNat 0xAB, Char.ofNat 0xBB,
  Char.ofNat 0x2591, Char.ofNat 0x2592, Char.ofNat 0x2593, Char.ofNat 0x2502, Char.ofNat 0x2524, Char.ofNat 0x2561, Char.ofNat 0x2562, Char.ofNat 0x2556,
  Char.ofNat 0x2555, Char.ofNat 0x2563, Char.ofNat 0x2551, Char.ofNat 0x2557, Char.ofNat 0x255D, Char.ofNat 0x255C, Char.ofNat 0x255B, Char.ofNat 0x2510,
  Char.ofNat 0x2514, Char.ofNat 0x2534, Char.ofNat 0x252C, Char.ofNat 0x251C, Char.ofNat 0x2500, Char.ofNat 0x253C, Char.ofNat 0x255E, Char.ofNat 0x255F,
  Char.ofNat 0x255A, Char.ofNat 0x2554, Char.ofNat 0x2569, Char.ofNat 0x2566, Char.ofNat 0x2560, Char.ofNat 0x2550, Char.ofNat 0x256C, Char.ofNat 0x2567,
  Char.ofNat 0x2568, Char.ofNat 0x2564, Char.ofNat 0x2565, Char.ofNat 0x2559, Char.ofNat 0x2558, Char.ofNat 0x2552, Char.ofNat 0x2553, Char.ofNat 0x256B,
  Char.ofNat 0x256A, Char.ofNat 0x2518, Char.ofNat 0x250C, Char.ofNat 0x2588, Char.ofNat 0x2584, Char.ofNat 0x258C, Char.ofNat 0x2590, Char.ofNat 0x2580,
  Char.ofNat 0x3B1, Char.ofNat 0xDF, Char.ofNat 0x393, Char.ofNat 0x3C0, Char.ofNat 0x3A3, Char.ofNat 0x3C3, Char.ofNat 0xB5, Char.ofNat 0x3C4,
  Char.ofNat 0x3A6, Char.ofNat 0x398, Char.ofNat 0x3A9, Char.ofNat 0x3B4, Char.ofNat 0x221E, Char.ofNat 0x3C6, Char.ofNat 0x3B5, Char.ofNat 0x2229,
  Char.ofNat 0x2261, Char.ofNat 0xB1, Char.ofNat 0x2265, Char.ofNat 0x2264, Char.ofNat 0x2320, Char.ofNat 0x2321, Char.ofNat 0xF7, Char.ofNat 0x2248,
  Char.ofNat 0xB0, Char.ofNat 0x2219, Char.ofNat 0xB7, Char.ofNat 0x221A, Char.ofNat 0x207F, Char.ofNat 0xB2, Char.ofNat 0x25A0, Char.ofNat 0xA0]

/-- One uppercase hexadecimal digit. -/
def hexDigit (n : Nat) : Char :=
  if n < 10 then Char.ofNat (0x30 + n) else Char.ofNat (0x37 + n)

/-- Uppercase hexadecimal rendering of `n` (no padding), as Rust `{:X}`. -/
def hexStr (n : Nat) : String :=
  String.mk ((Nat.toDigits 16 n).map Char.toUpper)

/-- Uppercase hexadecimal rendering padded to two digits, as Rust `{:02X}`. -/
def hex2 (n : Nat) : String :=
  if n < 16 then "0" ++ hexStr n else hexStr n

/-- `to_utf8` from `cp437.rs`: map every byte through `CP437_TO_UTF8`.
(Rust indexes with a `u8`, which is always in range; `getD` mirrors that
total indexing.) -/
def to_utf8 (cp437 : List Nat) : List Char :=
  cp437.map (fun byte => CP437_TO_UTF8.getD byte (Char.ofNat 0x20))

/-- The inverse lookup `UTF8_TO_CP437` in `cp437.rs`: the table is walked in
index order and every `(char, index)` pair is inserted into a map, a later
insert overwriting the value of an equal key.  Looking up `c` therefore
yields the last index whose table entry is `c`. -/
def UTF8_TO_CP437 (c : Char) : Option Nat :=
  CP437_TO_UTF8.enum.foldl (fun acc p => if p.2 = c then some p.1 else acc) none

/-- `to_cp437` from `cp437.rs`: encode every character through
`UTF8_TO_CP437`, failing on the first character with no mapping. -/
def to_cp437 (utf8 : List Char) : Except String (List Nat) :=
  utf8.mapM (fun c =>
    match UTF8_TO_CP437 c with
    | some byte => Except.ok byte
    | none => Except.error
        (String.mk [c] ++ " (U+" ++ hexStr c.toNat ++ ") is not a valid CP437 character"))

/-- Decidable equality for `Except`, so concrete runs elsewhere in this file
can be checked by `decide`. -/
instance {ε α : Type} [DecidableEq ε] [DecidableEq α] : DecidableEq (Except ε α) := fun x y =>
  match x, y with
  | Except.ok a, Except.ok b =>
    if h : a = b then isTrue (by rw [h]) else isFalse (by intro hc; cases hc; exact h rfl)
  | Except.error a, Except.error b =>
    if h : a = b then isTrue (by rw [h]) else isFalse (by intro hc; cases hc; exact h rfl)
  | Except.ok _, Except.error _ => isFalse (by intro h; cases h)
  | Except.error _, Except.ok _ => isFalse (by intro h; cases h)

/-- UTF-8 byte length of a string (Rust `str::len`), as the sum of the
UTF-8 sizes of its characters. -/
def utf8Len (s : List Char) : Nat := (s.map Char.utf8Size).sum

/-- The five control characters rejected by `check_char` in `meta.rs`. -/
def controlChars : List Char :=
  [Char.ofNat 0x00, Char.ofNat 0x0A, Char.ofNat 0x0D, Char.ofNat 0x1A, Char.ofNat 0x1B]

/-- `check_char` from `meta.rs`. Rust's `char as u8` in the first message is a
truncating cast, modelled by `% 256`. -/
def check_char (c : Char) : Except String Unit :=
  if controlChars.contains c then
    Except.error ("0x" ++ hex2 (c.toNat % 256) ++ " is a control character")
  else if ¬ CP437_TO_UTF8.contains c then
    Except.error (String.mk [c] ++ " (U+" ++ hexStr c.toNat ++ ") is not a valid CP437 character")
  else Except.ok ()

/-- The `try_for_each` loop in `check_str`: check characters left to right,
stopping at the first failure. -/
def check_chars (name : String) : List Char → Except String Unit
  | [] => Except.ok ()
  | c :: rest =>
    match check_char c with
    | Except.error msg => Except.error (name ++ " contains illegal characters (" ++ msg ++ ")")
    | Except.ok () => check_chars name rest

/-- `check_str` from `meta.rs` (length in UTF-8 bytes, like Rust `str::len`). -/
def check_str (s : List Char) (name : String) (maxLength : Nat) : Except String Unit :=
  if utf8Len s > maxLength then
    Except.error (name ++ " is too long (expected <=" ++ Nat.repr maxLength ++ ", got " ++
      Nat.repr (utf8Len s) ++ ")")
  else check_chars name s

/-- A file's metadata (`Meta` in `meta.rs`).  Strings are `List Char`,
`u32`/`u16`/`u8` fields are `Nat` values kept below their bound by callers. -/
structure Meta where
  title : List Char
  author : List Char
  group : List Char
  date : List Char
  size : Nat
  type : Nat × Nat
  width : Nat
  height : Nat
  flags : Nat
  font : List Char
  notes : List (List Char)
deriving DecidableEq

/-- `Meta::default` from `meta.rs`. -/
def Meta.default : Meta :=
  { title := [], author := [], group := [], date := [], size := 0, type := (1, 1),
    width := 80, height := 25, flags := 0x0D, font := "IBM VGA".data, notes := [] }

/-- `Meta::width()`: the width field if positive, otherwise the default 80. -/
def Meta.resolvedWidth (m : Meta) : Nat := if m.width > 0 then m.width else Meta.default.width

/-- `Meta::height()`: the height field if positive, otherwise the default 25. -/
def Meta.resolvedHeight (m : Meta) : Nat := if m.height > 0 then m.height else Meta.default.height

/-- `type_name` from `meta.rs`, match arms in source order. -/
def type_name : Nat × Nat → String
  | (0, _) => "None"
  | (1, 0) => "Character/ASCII"
  | (1, 1) => "Character/ANSi"
  | (1, 2) => "Character/ANSiMation"
  | (1, 3) => "Character/RIPScript"
  | (1, 4) => "Character/PCBoard"
  | (1, 5) => "Character/Avatar"
  | (1, 6) => "Character/HTML"
  | (1, 7) => "Character/Source"
  | (1, 8) => "Character/TundraDraw"
  | (1, n) => "Character/Unknown " ++ Nat.repr n
  | (2, _) => "Bitmap"
  | (3, _) => "Vector"
  | (4, _) => "Audio"
  | (5, _) => "BinaryText"
  | (6, _) => "XBin"
  | (7, _) => "Archive"
  | (8, _) => "Executable"
  | (a, b) => "Unknown " ++ Nat.repr a ++ "/Unknown " ++ Nat.repr b

/-- `check_title` from `meta.rs`. -/
def check_title (meta : Option Meta) : Except String Unit :=
  match meta with
  | none => Except.ok ()
  | some m => check_str m.title "Title" 35

/-- `check_author` from `meta.rs`. -/
def check_author (meta : Option Meta) : Except String Unit :=
  match meta with
  | none => Except.ok ()
  | some m => check_str m.author "Author" 20

/-- `check_group` from `meta.rs`. -/
def check_group (meta : Option Meta) : Except String Unit :=
  match meta with
  | none => Except.ok ()
  | some m => check_str m.group "Group" 20

/-- Number of days of month `m` in proleptic-Gregorian year `y`. -/
def daysInMonth (y m : Nat) : Nat :=
  if m = 2 then (if (y % 4 = 0 && y % 100 != 0) || y % 400 = 0 then 29 else 28)
  else if m = 4 || m = 6 || m = 9 || m = 11 then 30
  else 31

/-- Decimal value of a digit string. -/
def digitsToNat (s : List Char) : Nat := s.foldl (fun a c => a * 10 + (c.toNat - 0x30)) 0

/-- Modelled from the external `chrono` crate as `check_date` uses it:
`NaiveDate::parse_from_str(s, "%Y%m%d")` on the 8-byte strings `check_date`
feeds it succeeds exactly on four year digits, two month digits and two day
digits forming a valid proleptic-Gregorian calendar date.  Only the
success/failure split matters to the claims below; the two failure messages
follow chrono's wording. -/
def parse_yyyymmdd (s : List Char) : Except String Unit :=
  if ¬ s.all (fun c => decide (0x30 ≤ c.toNat ∧ c.toNat ≤ 0x39)) then
    Except.error "input contains invalid characters"
  else
    let y := digitsToNat (s.take 4)
    let m := digitsToNat ((s.drop 4).take 2)
    let d := digitsToNat (s.drop 6)
    if 1 ≤ m ∧ m ≤ 12 ∧ 1 ≤ d ∧ d ≤ daysInMonth y m then Except.ok ()
    else Except.error "input is out of range"

/-- `check_date` from `meta.rs` (`m.date.len()` is the UTF-8 byte length). -/
def check_date (meta : Option Meta) : Except String Unit :=
  match meta with
  | none => Except.ok ()
  | some m =>
    if m.date.isEmpty then Except.ok ()
    else if utf8Len m.date ≠ 8 then
      Except.error ("Date length is wrong (expected =8, got " ++ Nat.repr (utf8Len m.date) ++ ")")
    else
      match parse_yyyymmdd m.date with
      | Except.error err => Except.error ("Date format is wrong (" ++ err ++ ")")
      | Except.ok () => Except.ok ()

/-- `check_type` from `meta.rs`: both components must be contained in `[0, 1]`. -/
def check_type (meta : Option Meta) : Except String Unit :=
  match meta with
  | none => Except.ok ()
  | some m =>
    if ¬ [0, 1].contains m.type.1 ∨ ¬ [0, 1].contains m.type.2 then
      Except.error ("Type is unsupported (" ++ type_name m.type ++ ")")
    else Except.ok ()

/-- `check_flags` from `meta.rs`: an else-if chain over the bitfield. -/
def check_flags (meta : Option Meta) : Except String Unit :=
  match meta with
  | none => Except.ok ()
  | some m =>
    if Nat.land m.flags 0x01 = 0x00 then Except.error "Blink mode is unsupported"
    else if Nat.land m.flags 0x06 = 0x06 then Except.error "Invalid letter spacing"
    else if Nat.land m.flags 0x18 = 0x18 then Except.error "Invalid aspect ratio"
    else if m.flags > 0x1F then Except.error "Invalid flags"
    else Except.ok ()

/-- `check_font` from `meta.rs`. -/
def check_font (meta : Option Meta) : Except String Unit :=
  match meta with
  | none => Except.ok ()
  | some m =>
    if ¬ ["IBM VGA".data, "IBM VGA 437".data, ([] : List Char)].contains m.font then
      Except.error ("Font is unsupported (" ++ String.mk m.font ++ ")")
    else Except.ok ()

/-- `(n as f32).log10().ceil() as usize` in `check_note`.  For every count
that can actually reach it (at most 255, enforced by `check_notes` before the
note loop runs) the `f32` computation is exact and equals the least `k` with
`10 ^ k ≥ n`, with the saturating cast sending `log10(0) = -∞` to 0; the
model writes that value out up to `10000` (far above the reachable range). -/
def ceilLog10 (n : Nat) : Nat :=
  if n ≤ 1 then 0 else if n ≤ 10 then 1 else if n ≤ 100 then 2
  else if n ≤ 1000 then 3 else 4

/-- Rust `{:0width$}` formatting of an unsigned number. -/
def zeroPad (w : Nat) (n : Nat) : String :=
  String.mk (List.replicate (w - (Nat.repr n).length) (Char.ofNat 0x30) ++ (Nat.repr n).data)

/-- `check_note` from `meta.rs`.  The source indexes `m.notes[i]` (panicking
when `i` is out of range); callers only pass `i < m.notes.len()`, and `getD`
mirrors the in-range behaviour. -/
def check_note (meta : Option Meta) (i : Nat) : Except String Unit :=
  match meta with
  | none => Except.ok ()
  | some m =>
    check_str (m.notes.getD i [])
      ("Notes[" ++ zeroPad (ceilLog10 m.notes.length) i ++ "]") 64

/-- The index loop of `check_notes`. -/
def check_notes_loop (meta : Option Meta) : Nat → Nat → Except String Unit
  | _, 0 => Except.ok ()
  | i, k + 1 =>
    match check_note meta i with
    | Except.error e => Except.error e
    | Except.ok () => check_notes_loop meta (i + 1) k

/-- `check_notes` from `meta.rs`. -/
def check_notes (meta : Option Meta) : Except String Unit :=
  match meta with
  | none => Except.ok ()
  | some m =>
    if m.notes.length > 255 then
      Except.error ("Too many notes (expected <= 255, got " ++ Nat.repr m.notes.length ++ ")")
    else check_notes_loop meta 0 m.notes.length

/-- `check` from `meta.rs`: all field checks in source order, first failure wins. -/
def check (meta : Option Meta) : Except String Unit := do
  check_title meta
  check_author meta
  check_group meta
  check_date meta
  check_type meta
  check_flags meta
  check_font meta
  check_notes meta

/-- Rust `format!("{:<w$}", s)` / `format!("{:\0<w$}", s)`: pad on the right
with `fill` up to `w` characters, never truncating. -/
def padTo (w : Nat) (fill : Char) (s : List Char) : List Char :=
  s ++ List.replicate (w - s.length) fill

/-- Little-endian byte rendering (`to_le_bytes`): `k` bytes of `v`. -/
def leBytes : Nat → Nat → List Nat
  | 0, _ => []
  | k + 1, v => v % 256 :: leBytes k (v / 256)

/-- Little-endian byte interpretation (`from_le_bytes`). -/
def leVal (bs : List Nat) : Nat := bs.foldr (fun b acc => b + 256 * acc) 0

/-- The ASCII bytes of `"COMNT"`. -/
def comntTag : List Nat := [0x43, 0x4F, 0x4D, 0x4E, 0x54]

/-- The ASCII bytes of `"SAUCE00"`. -/
def sauceTag : List Nat := [0x53, 0x41, 0x55, 0x43, 0x45, 0x30, 0x30]

/-- The space character, the padding of text fields. -/
def spChar : Char := Char.ofNat 0x20

/-- The NUL character, the padding of the font field. -/
def nulChar : Char := Char.ofNat 0x00

/-- `write_meta` from `bins/set-meta/main.rs`: the bytes the serializer
appends after the body.  `as u8` casts are modelled by `% 256`. -/
def write_meta (m : Meta) : Except String (List Nat) := do
  let notes ← m.notes.mapM (fun note => to_cp437 (padTo 64 spChar note))
  let title ← to_cp437 (padTo 35 spChar m.title)
  let author ← to_cp437 (padTo 20 spChar m.author)
  let group ← to_cp437 (padTo 20 spChar m.group)
  let date ← to_cp437 (padTo 8 spChar m.date)
  let font ← to_cp437 (padTo 22 nulChar m.font)
  return [0x1A] ++ (if m.notes.isEmpty then [] else comntTag ++ notes.flatten) ++
    sauceTag ++ title ++ author ++ group ++ date ++
    leBytes 4 m.size ++ [m.type.1 % 256, m.type.2 % 256] ++
    leBytes 2 m.width ++ leBytes 2 m.height ++ leBytes 4 0 ++
    [m.notes.length % 256] ++ [m.flags % 256] ++ font

/-- The last `n` elements of a list (`SeekFrom::End(-n)` plus `read_exact`). -/
def lastN (n : Nat) (xs : List α) : List α := xs.drop (xs.length - n)

/-- The `offset` local of `read_raw` in `meta.rs`: `sauce[104]` is the
comment count, the record is 129 bytes plus `64·count + 5` more when a
comment block is claimed. -/
def rrOffset (file : List Nat) : Nat :=
  (lastN 128 file).getD 104 0 * 64 + (if (lastN 128 file).getD 104 0 > 0 then 134 else 129)

/-- `read_raw` from `meta.rs` on the whole file contents (the `sauce`, `cnt`
and `raw` locals of the source are written out as their defining
expressions).  Seeking before the start of the file (a claimed comment block
longer than the file) is the one I/O error reachable from in-memory
contents. -/
def read_raw (file : List Nat) : Except String (Option (List Nat)) :=
  if file.length < 129 then Except.ok none
  else if (lastN 128 file).take 7 ≠ sauceTag then Except.ok none
  else if file.length < rrOffset file then Except.error "invalid seek to a negative position"
  else if (lastN (rrOffset file) file).getD 0 0 ≠ 0x1A ∨
      (rrOffset file > 129 ∧ ((lastN (rrOffset file) file).drop 1).take 5 ≠ comntTag) then
    Except.ok none
  else Except.ok (some (lastN (rrOffset file) file))

/-- `str::trim_matches(c)`: strip every leading and trailing occurrence of `c`. -/
def trimCh (c : Char) (s : List Char) : List Char :=
  ((s.dropWhile (fun a => a = c)).reverse.dropWhile (fun a => a = c)).reverse

/-- `raw[raw.len()-a .. raw.len()-b]`, the fixed negative-offset slices used
by the parsing closure in `read`. -/
def sliceFE (raw : List Nat) (a b : Nat) : List Nat :=
  (raw.drop (raw.length - a)).take (a - b)

/-- The parsing closure inside `read` in `meta.rs`, turning a located raw
record into a `Meta`.  `read_raw` only produces buffers of length ≥ 129, for
which every slice below is in range (so the `try_into` error paths of the
source are unreachable and the function is total). -/
def parse_meta (raw : List Nat) : Meta :=
  { title := trimCh spChar (to_utf8 (sliceFE raw 121 86))
  , author := trimCh spChar (to_utf8 (sliceFE raw 86 66))
  , group := trimCh spChar (to_utf8 (sliceFE raw 66 46))
  , date := trimCh spChar (to_utf8 (sliceFE raw 46 38))
  , size := leVal (sliceFE raw 38 34)
  , type := (raw.getD (raw.length - 34) 0, raw.getD (raw.length - 33) 0)
  , width := leVal (sliceFE raw 32 30)
  , height := leVal (sliceFE raw 30 28)
  , flags := raw.getD (raw.length - 23) 0
  , font := trimCh nulChar (to_utf8 (raw.drop (raw.length - 22)))
  , notes := ((List.range (raw.getD (raw.length - 24) 0)).reverse).map (fun i =>
      trimCh spChar (to_utf8 ((raw.drop (raw.length - (i + 3) * 64)).take 64))) }

/-- `read` from `meta.rs`: locate the raw record and parse it. -/
def read (file : List Nat) : Except String (Option Meta) :=
  (read_raw file).map (fun maybeRaw => maybeRaw.map parse_meta)

/-- RGB triple (`[u8; 3]`). -/
abbrev Rgb := Nat × Nat × Nat

/-- The per-render mutable state of `read_by_bytes_full` in `process.rs`:
cursor, colour pair, bright flag and the escape accumulator. -/
structure RState where
  x : Nat
  y : Nat
  bg : Rgb
  fg : Rgb
  bright : Bool
  control : List Nat
deriving DecidableEq

/-- One glyph callback invocation: `callback(byte, (x, y), [bg, fg])`. -/
structure Ev where
  byte : Nat
  x : Nat
  y : Nat
  bg : Rgb
  fg : Rgb
deriving DecidableEq

/-- How a render pass ends early: a propagated error (`?` on UTF-8/parse
failure), or a panic from an out-of-range slice or index. -/
inductive Halt where
  | fail
  | oob
deriving DecidableEq

/-- Rust `str::parse::<uN>` composed with `String::from_utf8` on a byte
slice: optional leading `+`, then at least one ASCII digit, value at most
`bound`; anything else (including non-UTF-8 bytes) is a propagated error. -/
def parseNum (bound : Nat) (bs : List Nat) : Option Nat :=
  let ds := match bs with
    | 0x2B :: rest => rest
    | _ => bs
  if ds.isEmpty then none
  else ds.foldl (fun acc b =>
    match acc with
    | some a => if 0x30 ≤ b ∧ b ≤ 0x39 ∧ a * 10 + (b - 0x30) ≤ bound then
        some (a * 10 + (b - 0x30)) else none
    | none => none) (some 0)

/-- UTF-8 validity of a byte sequence (`String::from_utf8` succeeding). -/
def validUtf8 : List Nat → Bool
  | [] => true
  | b :: rest =>
    if b ≤ 0x7F then validUtf8 rest
    else if 0xC2 ≤ b ∧ b ≤ 0xDF then
      match rest with
      | c1 :: r => decide (0x80 ≤ c1 ∧ c1 ≤ 0xBF) && validUtf8 r
      | [] => false
    else if 0xE0 ≤ b ∧ b ≤ 0xEF then
      match rest with
      | c1 :: c2 :: r =>
        (if b = 0xE0 then decide (0xA0 ≤ c1 ∧ c1 ≤ 0xBF)
         else if b = 0xED then decide (0x80 ≤ c1 ∧ c1 ≤ 0x9F)
         else decide (0x80 ≤ c1 ∧ c1 ≤ 0xBF)) &&
        decide (0x80 ≤ c2 ∧ c2 ≤ 0xBF) && validUtf8 r
      | _ => false
    else if 0xF0 ≤ b ∧ b ≤ 0xF4 then
      match rest with
      | c1 :: c2 :: c3 :: r =>
        (if b = 0xF0 then decide (0x90 ≤ c1 ∧ c1 ≤ 0xBF)
         else if b = 0xF4 then decide (0x80 ≤ c1 ∧ c1 ≤ 0x8F)
         else decide (0x80 ≤ c1 ∧ c1 ≤ 0xBF)) &&
        decide (0x80 ≤ c2 ∧ c2 ≤ 0xBF) && decide (0x80 ≤ c3 ∧ c3 ≤ 0xBF) && validUtf8 r
      | _ => false
    else false

/-- One `;`-separated SGR parameter of the `m` arm in `read_by_bytes_full`:
empty segments count as `0`, parse failure propagates (`none`), recognized
codes update the `(bg, fg, bright)` triple, unrecognized codes only warn. -/
def sgrOne (pal : Fin 16 → Rgb) (c : Rgb × Rgb × Bool) (seg : List Nat) : Option (Rgb × Rgb × Bool) :=
  let seg := if seg.isEmpty then [0x30] else seg
  match parseNum 18446744073709551615 seg with
  | none => none
  | some n =>
    let (bg, fg, br) := c
    if n = 0 then some (pal 0, pal 15, false)
    else if n = 1 then some (bg, fg, true)
    else if h : 30 ≤ n ∧ n ≤ 37 then
      some (bg, pal ⟨n - 30 + (if br then 8 else 0), by rcases h with ⟨h1, h2⟩; split <;> omega⟩, br)
    else if n = 39 then some (bg, pal 15, br)
    else if h : 40 ≤ n ∧ n ≤ 47 then some (pal ⟨n - 40, by omega⟩, fg, br)
    else if n = 49 then some (pal 0, fg, br)
    else if h : 90 ≤ n ∧ n ≤ 97 then some (bg, pal ⟨n - 82, by omega⟩, br)
    else if h : 100 ≤ n ∧ n ≤ 107 then some (pal ⟨n - 92, by omega⟩, fg, br)
    else some (bg, fg, br)

/-- The `m` arm of the escape dispatch in `read_by_bytes_full`: apply the
`;`-separated SGR parameters of `control[2..]` in order.  Slicing with an
accumulator shorter than 2 bytes is the source's out-of-range panic. -/
def stepSgr (pal : Fin 16 → Rgb) (s : RState) : Except Halt (RState × Option Ev) :=
  if s.control.length < 2 then Except.error Halt.oob
  else
    match ((s.control.drop 2).splitOn 0x3B).foldlM (sgrOne pal) (s.bg, s.fg, s.bright) with
    | none => Except.error Halt.fail
    | some (bg, fg, br) =>
      Except.ok ({ s with bg := bg, fg := fg, bright := br, control := [] }, none)

/-- The `t` arm (custom RGB extension): `control[2..]` is split on `;` and
fields 1–3 are parsed as `u8` in order, each index checked for the source's
out-of-range panic before its parse, and the parses erroring before the next
index is touched; field 0 selects background or foreground, any other valid
UTF-8 value only warns, and non-UTF-8 is a propagated error. -/
def stepRgbExt (s : RState) : Except Halt (RState × Option Ev) :=
  if s.control.length < 2 then Except.error Halt.oob
  else
    match (s.control.drop 2).splitOn 0x3B with
    | [] => Except.error Halt.oob
    | cmd0 :: cmdRest =>
      if cmdRest.length < 1 then Except.error Halt.oob
      else match parseNum 255 (cmdRest.getD 0 []) with
        | none => Except.error Halt.fail
        | some r =>
          if cmdRest.length < 2 then Except.error Halt.oob
          else match parseNum 255 (cmdRest.getD 1 []) with
            | none => Except.error Halt.fail
            | some g =>
              if cmdRest.length < 3 then Except.error Halt.oob
              else match parseNum 255 (cmdRest.getD 2 []) with
                | none => Except.error Halt.fail
                | some bl =>
                  if cmd0 = [0x30] then Except.ok ({ s with bg := (r, g, bl), control := [] }, none)
                  else if cmd0 = [0x31] then
                    Except.ok ({ s with fg := (r, g, bl), control := [] }, none)
                  else if validUtf8 cmd0 then Except.ok ({ s with control := [] }, none)
                  else Except.error Halt.fail

/-- The `B` arm (cursor down): parse `control[2..]` as a `u16` and advance
`y` by it. -/
def stepCursorDown (s : RState) : Except Halt (RState × Option Ev) :=
  if s.control.length < 2 then Except.error Halt.oob
  else match parseNum 65535 (s.control.drop 2) with
    | none => Except.error Halt.fail
    | some n => Except.ok ({ s with y := s.y + n, control := [] }, none)

/-- The `C` arm (cursor right, clamped): parse `control[2..]` as a `u16` and
advance `x` by it, clamped to `width - 1`. -/
def stepCursorRight (width : Nat) (s : RState) : Except Halt (RState × Option Ev) :=
  if s.control.length < 2 then Except.error Halt.oob
  else match parseNum 65535 (s.control.drop 2) with
    | none => Except.error Halt.fail
    | some n => Except.ok ({ s with x := min (s.x + n) (width - 1), control := [] }, none)

/-- The escape-in-progress dispatch of `read_by_bytes_full`: final bytes
`m`/`t`/`B`/`C` go to their arms, any other final byte in `0x40..=0x7E`
found after more than one accumulated byte warns and clears, and anything
else keeps accumulating. -/
def stepEscape (pal : Fin 16 → Rgb) (width : Nat) (s : RState) (b : Nat) :
    Except Halt (RState × Option Ev) :=
  if b = 0x6D then stepSgr pal s
  else if b = 0x74 then stepRgbExt s
  else if b = 0x42 then stepCursorDown s
  else if b = 0x43 then stepCursorRight width s
  else if s.control.length > 1 ∧ 0x40 ≤ b ∧ b ≤ 0x7E then
    Except.ok ({ s with control := [] }, none)
  else Except.ok ({ s with control := s.control ++ [b] }, none)

/-- One byte of the rendering state machine (`read_by_bytes_full` in
`process.rs`), as a pure transition: the next state plus an optional glyph
event, or an early end (`Halt.fail` for a propagated error, `Halt.oob` for an
out-of-range slice or index panic).  `width` and `height` are the resolved
`meta.width()` / `meta.height()` dimensions. -/
def step (pal : Fin 16 → Rgb) (width height : Nat) (s : RState) (b : Nat) :
    Except Halt (RState × Option Ev) :=
  if s.y ≥ height then Except.ok (s, none)
  else if s.control.isEmpty = false then stepEscape pal width s b
  else if b = 0x1B then Except.ok ({ s with control := [b] }, none)
  else if b = 0x0D then Except.ok ({ s with x := 0 }, none)
  else if b = 0x0A then Except.ok ({ s with x := 0, y := s.y + 1 }, none)
  else
    if s.x + 1 ≥ width then
      Except.ok ({ s with x := 0, y := s.y + 1 },
        some { byte := b, x := s.x, y := s.y, bg := s.bg, fg := s.fg })
    else
      Except.ok ({ s with x := s.x + 1 },
        some { byte := b, x := s.x, y := s.y, bg := s.bg, fg := s.fg })

/-- Run the state machine over a byte list, collecting the glyph events in
order; a `Halt` ends the pass early, keeping the events already emitted. -/
def runFrom (pal : Fin 16 → Rgb) (width height : Nat) :
    RState → List Nat → List Ev × Option Halt
  | _, [] => ([], none)
  | s, b :: rest =>
    match step pal width height s b with
    | Except.error e => ([], some e)
    | Except.ok (s', ev) =>
      let (evs, r) := runFrom pal width height s' rest
      (ev.toList ++ evs, r)

/-- A full render pass of `read_by_bytes_full`: initial cursor `(0, 0)`,
`bg = colours[0]`, `fg = colours[15]`, bright off, empty accumulator. -/
def processBytes (pal : Fin 16 → Rgb) (width height : Nat) (bytes : List Nat) :
    List Ev × Option Halt :=
  runFrom pal width height
    { x := 0, y := 0, bg := pal 0, fg := pal 15, bright := false, control := [] } bytes

/-- Every character of `s` has a CP437 encoding. -/
@[reducible]
def Encodable (s : List Char) : Prop := ∀ c ∈ s, c ∈ CP437_TO_UTF8

/-- The byte encoding of a field padded to `w` characters; equals the
successful result of `to_cp437 (padTo w fill s)` whenever `s` is encodable
(see `encPad_ok`). -/
def encPad (w : Nat) (fill : Char) (s : List Char) : List Nat :=
  ((to_cp437 (padTo w fill s)).toOption).getD []

/-- The bytes `write_meta` produces for a `Meta` whose fields all encode:
a single `0x1A`, the optional `COMNT` block, `SAUCE00`, and the fixed-width
field block (see `write_meta_ok`). -/
def sauceRecord (m : Meta) : List Nat :=
  [0x1A] ++
  (if m.notes.isEmpty then [] else comntTag ++ (m.notes.map (encPad 64 spChar)).flatten) ++
  sauceTag ++
  encPad 35 spChar m.title ++ encPad 20 spChar m.author ++ encPad 20 spChar m.group ++
  encPad 8 spChar m.date ++ leBytes 4 m.size ++ [m.type.1 % 256, m.type.2 % 256] ++
  leBytes 2 m.width ++ leBytes 2 m.height ++ leBytes 4 0 ++
  [m.notes.length % 256] ++ [m.flags % 256] ++ encPad 22 nulChar m.font

/-- Right-padding of a byte string with a fill byte, the "padded to N bytes"
wording of spec §4.4. -/
def padBytes (w : Nat) (fill : Nat) (bs : List Nat) : List Nat :=
  bs ++ List.replicate (w - bs.length) fill

/-- A text field as spec §4.4 words it: "CP437-encoded and space-padded to
`w` bytes". -/
def spec_field (w : Nat) (s : List Char) : Except String (List Nat) :=
  (to_cp437 s).map (padBytes w 0x20)

/-- The fixed 121-byte field block after `SAUCE00`, following the field list
and widths of spec §4.4 word for word. -/
def spec_fields (m : Meta) : Except String (List Nat) := do
  let title ← spec_field 35 m.title
  let author ← spec_field 20 m.author
  let group ← spec_field 20 m.group
  let date ← spec_field 8 m.date
  let font ← (to_cp437 m.font).map (padBytes 22 0x00)
  return title ++ author ++ group ++ date ++ leBytes 4 m.size ++
    [m.type.1 % 256, m.type.2 % 256] ++ leBytes 2 m.width ++ leBytes 2 m.height ++
    leBytes 4 0 ++ [m.notes.length % 256] ++ [m.flags % 256] ++ font

/-- The comment block as spec §4.4 words it: each note CP437-encoded and
space-padded to exactly 64 bytes. -/
def spec_notes (m : Meta) : Except String (List Nat) :=
  (m.notes.mapM (fun n => (to_cp437 n).map (padBytes 64 0x20))).map List.flatten

/-- The record layout exactly as claim C2 words it: when notes are
non-empty, `0x1A` + `COMNT` + the notes; then (always) `0x1A` + `SAUCE00` +
the field block. -/
def claim_layout_C2 (m : Meta) : Except String (List Nat) := do
  let nb ← spec_notes m
  let fields ← spec_fields m
  return (if m.notes.isEmpty then [] else [0x1A] ++ comntTag ++ nb) ++
    [0x1A] ++ sauceTag ++ fields

/-- Claim C2's layout amended to what the code writes: a single `0x1A` opens
the whole record (the `COMNT` block, when present, sits between that byte
and `SAUCE00`, with no second `0x1A`). -/
def amended_layout_C2 (m : Meta) : Except String (List Nat) := do
  let nb ← spec_notes m
  let fields ← spec_fields m
  return [0x1A] ++ (if m.notes.isEmpty then [] else comntTag ++ nb) ++
    sauceTag ++ fields

/-- Modelled from the words of spec §4.3: the decimal width of the maximum
note index, `count - 1`. -/
def maxIndexWidth (count : Nat) : Nat := (Nat.repr (count - 1)).length

/-- A valid metadata value with one note, used to exercise C2. -/
def mC2 : Meta := { Meta.default with notes := [[Char.ofNat 0x41]] }

/-- A valid metadata value whose title carries a trailing space, used to
exercise C1: validation accepts it, but the parse of its serialization trims
the space away. -/
def mC1c : Meta := { Meta.default with title := [Char.ofNat 0x41, Char.ofNat 0x20] }

/-- A valid metadata value with trimmed fields and a note, used as the C1
witness input. -/
def mC1w : Meta :=
  { Meta.default with
    title := "TITLE".data
    date := "19700101".data
    size := 416
    width := 32
    height := 8
    flags := 0x01
    notes := ["Lorem".data, "ipsum".data] }

/-- A metadata value with exactly 100 notes whose first note contains a
control character, used to exercise C9. -/
def mC9 : Meta :=
  { Meta.default with notes := [Char.ofNat 0x00] :: List.replicate 99 [] }

/-- A metadata value with two notes, the second of which is 65 characters
long, used as the C9 witness input. -/
def mC9w : Meta :=
  { Meta.default with notes := [[], List.replicate 65 (Char.ofNat 0x41)] }


theorem except_seq_ok {ε : Type} {a b : Except ε Unit}
    (h : (do a; b) = Except.ok ()) : a = Except.ok () ∧ b = Except.ok () := by
  cases a with
  | ok u => cases u; exact ⟨rfl, h⟩
  | error e => simp [Bind.bind, Except.bind] at h

theorem contains01_eq (t : Nat) : ([0, 1].contains t) = decide (t ≤ 1) := by
  match t with
  | 0 => rfl
  | 1 => rfl
  | n + 2 => rfl

set_option maxRecDepth 40000 in
set_option maxHeartbeats 4000000 in
/-- C3: for every byte `b` in `0..=255`, `to_cp437 (to_utf8 [b]) = Ok [b]`.
The table is injective (0xFF is U+00A0, distinct from the space at 0x20, and
0x1A/0x1B map to their own control codepoints), so the round trip holds for
all 256 bytes — including the three reserved framing bytes the spec carves
out. -/
theorem c3_cp437_roundtrip : ∀ b : Fin 256, to_cp437 (to_utf8 [b.val]) = Except.ok [b.val] := by
  decide

/-- C4 (amended): `check_type` accepts exactly the pairs with both
components in `{0, 1}` — the three supported pairs `(0,0)`, `(1,0)`, `(1,1)`
and additionally `(0,1)`; every other pair is rejected with a message
carrying the human-readable `type_name`. -/
theorem c4_check_type_amended (m : Meta) :
    (check_type (some m) = Except.ok () ↔ m.type.1 ≤ 1 ∧ m.type.2 ≤ 1) ∧
    (¬ (m.type.1 ≤ 1 ∧ m.type.2 ≤ 1) →
      check_type (some m) = Except.error ("Type is unsupported (" ++ type_name m.type ++ ")")) := by
  have hcond : (¬ [0, 1].contains m.type.1 ∨ ¬ [0, 1].contains m.type.2) ↔
      ¬ (m.type.1 ≤ 1 ∧ m.type.2 ≤ 1) := by
    rw [contains01_eq, contains01_eq]
    simp only [decide_eq_true_eq, not_and_or, not_le]
  constructor
  · constructor
    · intro h
      by_contra hc
      simp only [check_type] at h
      rw [if_pos (hcond.2 hc)] at h
      cases h
    · intro hc
      simp only [check_type]
      rw [if_neg (fun hx => (hcond.1 hx) hc)]
  · intro hc
    simp only [check_type]
    rw [if_pos (hcond.2 hc)]

/-- C4 counterexample: `(0, 1)` is not one of the three pairs the claim
lists, yet `check_type` accepts it. -/
theorem c4_counterexample :
    check_type (some { Meta.default with type := (0, 1) }) = Except.ok () ∧
    ¬ (((0 : Nat), (1 : Nat)) = (0, 0) ∨ ((0 : Nat), (1 : Nat)) = (1, 0) ∨
       ((0 : Nat), (1 : Nat)) = (1, 1)) := by decide

/-- C4 witness: a concrete rejected type, via `c4_check_type_amended`. -/
theorem c4_witness :
    check_type (some { Meta.default with type := (2, 0) }) =
      Except.error ("Type is unsupported (" ++ type_name (2, 0) ++ ")") :=
  (c4_check_type_amended { Meta.default with type := (2, 0) }).2 (by decide)

/-- C5 (amended): the `check_flags` else-if chain — a clear blink bit always
reports the blink error first; the letter-spacing error needs the blink bit
set; the aspect-ratio error additionally needs the letter-spacing bits not
both set; and any flags with a bit above bit 4 set are rejected (though not
always with the "Invalid flags" message). -/
theorem c5_check_flags_amended (m : Meta) :
    (Nat.land m.flags 0x01 = 0 → check_flags (some m) = Except.error "Blink mode is unsupported") ∧
    (Nat.land m.flags 0x01 ≠ 0 → Nat.land m.flags 0x06 = 0x06 →
      check_flags (some m) = Except.error "Invalid letter spacing") ∧
    (Nat.land m.flags 0x01 ≠ 0 → Nat.land m.flags 0x06 ≠ 0x06 → Nat.land m.flags 0x18 = 0x18 →
      check_flags (some m) = Except.error "Invalid aspect ratio") ∧
    (0x20 ≤ m.flags → check_flags (some m) ≠ Except.ok ()) := by
  refine ⟨fun h1 => ?_, fun h1 h2 => ?_, fun h1 h2 h3 => ?_, fun h => ?_⟩
  · simp only [check_flags]; rw [if_pos h1]
  · simp only [check_flags]; rw [if_neg h1, if_pos h2]
  · simp only [check_flags]; rw [if_neg h1, if_neg h2, if_pos h3]
  · simp only [check_flags]
    split
    · simp
    split
    · simp
    split
    · simp
    rw [if_pos (by omega)]
    simp

/-- C5 counterexample: flags `0x06` have both letter-spacing bits set, but
the reported message is the blink one, not "Invalid letter spacing". -/
theorem c5_counterexample :
    Nat.land (0x06 : Nat) 0x06 = 0x06 ∧
    check_flags (some { Meta.default with flags := 0x06 }) =
      Except.error "Blink mode is unsupported" ∧
    ("Blink mode is unsupported" : String) ≠ "Invalid letter spacing" := by decide

/-- C5 witness: flags `0x00` (blink bit clear) fail with the blink message,
via `c5_check_flags_amended`. -/
theorem c5_witness :
    check_flags (some { Meta.default with flags := 0x00 }) =
      Except.error "Blink mode is unsupported" :=
  (c5_check_flags_amended { Meta.default with flags := 0x00 }).1 (by decide)

/-- C6: the locator returns `Ok(None)` — not an error — for every file
shorter than 129 bytes, and for every file of at least 129 bytes whose last
128 bytes do not begin with `SAUCE00`. -/
theorem c6_locator_absence (file : List Nat) :
    (file.length < 129 → read_raw file = Except.ok none) ∧
    (129 ≤ file.length → (lastN 128 file).take 7 ≠ sauceTag → read_raw file = Except.ok none) := by
  constructor
  · intro h
    unfold read_raw
    rw [if_pos h]
  · intro h hne
    unfold read_raw
    rw [if_neg (by omega), if_pos hne]

set_option maxRecDepth 10000 in
/-- C6 witness: a 128-byte file and a 129-byte zero file, via
`c6_locator_absence`. -/
theorem c6_witness :
    read_raw (List.replicate 128 0) = Except.ok none ∧
    read_raw (List.replicate 129 0) = Except.ok none :=
  ⟨(c6_locator_absence (List.replicate 128 0)).1 (by decide),
   (c6_locator_absence (List.replicate 129 0)).2 (by decide) (by decide)⟩

set_option maxRecDepth 10000 in
/-- C8: the render state machine does not handle a lone `ESC` followed by a
final byte gracefully — `ESC m` slices `control[2..]` with a length-1
accumulator and `ESC [ t` indexes `cmd[1]` of a one-element split, both
out-of-range accesses (panics), where the spec promises a warning or an
error value. -/
theorem c8_escape_slice_oob :
    processBytes (fun _ => (0, 0, 0)) 80 25 [0x1B, 0x6D] = ([], some Halt.oob) ∧
    processBytes (fun _ => (0, 0, 0)) 80 25 [0x1B, 0x5B, 0x74] = ([], some Halt.oob) := by
  decide

set_option maxRecDepth 10000 in
theorem ceilLog10_eq_maxIndexWidth : ∀ n, n < 256 → 2 ≤ n → ceilLog10 n = maxIndexWidth n := by
  decide

set_option maxRecDepth 10000 in
theorem maxIndexWidth_eq_three : ∀ n, n < 256 → 101 ≤ n → maxIndexWidth n = 3 := by decide

/-- C9 (amended): for at most 255 notes, a failing note `i` is labelled
`Notes[i]` zero-padded to the width of the maximum note index; that width is
3 digits whenever there are at least **101** notes (with exactly 100 notes
the maximum index 99 is two digits wide). -/
theorem c9_note_label_amended (m : Meta) (i : Nat)
    (h1 : i < m.notes.length) (h2 : m.notes.length ≤ 255) :
    check_note (some m) i =
      check_str (m.notes.getD i [])
        ("Notes[" ++ zeroPad (maxIndexWidth m.notes.length) i ++ "]") 64 ∧
    (101 ≤ m.notes.length → maxIndexWidth m.notes.length = 3) := by
  refine ⟨?_, fun h => maxIndexWidth_eq_three _ (by omega) h⟩
  have hpad : zeroPad (ceilLog10 m.notes.length) i = zeroPad (maxIndexWidth m.notes.length) i := by
    rcases Nat.lt_or_ge m.notes.length 2 with hlt | hge
    · have hl : m.notes.length = 1 := by omega
      have hi : i = 0 := by omega
      rw [hl, hi]
      decide
    · rw [ceilLog10_eq_maxIndexWidth _ (by omega) hge]
  simp only [check_note]
  rw [hpad]

/-- C9 counterexample: with exactly 100 notes (maximum index 99) the label
is two digits wide, not the three digits the claim asserts for "at least
100 notes". -/
theorem c9_counterexample :
    mC9.notes.length = 100 ∧
    check_note (some mC9) 0 =
      Except.error "Notes[00] contains illegal characters (0x00 is a control character)" ∧
    ("Notes[00] contains illegal characters (0x00 is a control character)" : String) ≠
      "Notes[000] contains illegal characters (0x00 is a control character)" := by decide

/-- C9 witness: a concrete two-note metadata, via `c9_note_label_amended`. -/
theorem c9_witness :
    (check_note (some mC9w) 1 =
      check_str (mC9w.notes.getD 1 [])
        ("Notes[" ++ zeroPad (maxIndexWidth mC9w.notes.length) 1 ++ "]") 64) ∧
    (101 ≤ mC9w.notes.length → maxIndexWidth mC9w.notes.length = 3) :=
  c9_note_label_amended mC9w 1 (by decide) (by decide)


/-- C7: over a 32×8 grid, the body `ESC [ 1 ; 3 3 m 'A'` invokes the glyph
callback exactly once, at the origin, with the default background
`palette[0]` and the bright-composed foreground `palette[3 + 8] =
palette[11]` (SGR 1 sets bright, then SGR 33 picks foreground 3 shifted by
8). -/
theorem c7_sgr_render (pal : Fin 16 → Rgb) :
    processBytes pal 32 8 [0x1B, 0x5B, 0x31, 0x3B, 0x33, 0x33, 0x6D, 0x41] =
      ([{ byte := 0x41, x := 0, y := 0, bg := pal 0, fg := pal 11 }], none) := rfl

theorem stepSgr_x_eq (pal : Fin 16 → Rgb) (s : RState) :
    ∀ s' ev, stepSgr pal s = Except.ok (s', ev) → s'.x = s.x ∧ ev = none := by
  intro s' ev h
  unfold stepSgr at h
  repeat' split at h
  all_goals cases h
  all_goals exact ⟨rfl, rfl⟩

theorem stepRgbExt_x_eq (s : RState) :
    ∀ s' ev, stepRgbExt s = Except.ok (s', ev) → s'.x = s.x ∧ ev = none := by
  intro s' ev h
  unfold stepRgbExt at h
  repeat' split at h
  all_goals cases h
  all_goals exact ⟨rfl, rfl⟩

theorem stepCursorDown_x_eq (s : RState) :
    ∀ s' ev, stepCursorDown s = Except.ok (s', ev) → s'.x = s.x ∧ ev = none := by
  intro s' ev h
  unfold stepCursorDown at h
  repeat' split at h
  all_goals cases h
  all_goals exact ⟨rfl, rfl⟩

theorem stepCursorRight_x_lt (width : Nat) (s : RState) (hw : 1 ≤ width) :
    ∀ s' ev, stepCursorRight width s = Except.ok (s', ev) → s'.x < width ∧ ev = none := by
  intro s' ev h
  unfold stepCursorRight at h
  repeat' split at h
  all_goals cases h
  all_goals exact ⟨by dsimp only; omega, rfl⟩

theorem stepEscape_bounds (pal : Fin 16 → Rgb) (width : Nat) (s : RState) (b : Nat)
    (hw : 1 ≤ width) (hx : s.x < width) :
    ∀ s' ev, stepEscape pal width s b = Except.ok (s', ev) → s'.x < width ∧ ev = none := by
  intro s' ev h
  unfold stepEscape at h
  repeat' split at h
  · obtain ⟨h1, h2⟩ := stepSgr_x_eq pal s s' ev h
    exact ⟨h1 ▸ hx, h2⟩
  · obtain ⟨h1, h2⟩ := stepRgbExt_x_eq s s' ev h
    exact ⟨h1 ▸ hx, h2⟩
  · obtain ⟨h1, h2⟩ := stepCursorDown_x_eq s s' ev h
    exact ⟨h1 ▸ hx, h2⟩
  · exact stepCursorRight_x_lt width s hw s' ev h
  · cases h; exact ⟨hx, rfl⟩
  · cases h; exact ⟨hx, rfl⟩

theorem step_ok_bounds (pal : Fin 16 → Rgb) (width height : Nat) (s : RState) (b : Nat)
    (hw : 1 ≤ width) (hx : s.x < width) :
    ∀ s' ev, step pal width height s b = Except.ok (s', ev) →
      s'.x < width ∧ ∀ e, ev = some e → e.x < width ∧ e.y < height := by
  intro s' ev h
  unfold step at h
  by_cases hy : s.y ≥ height
  · rw [if_pos hy] at h
    cases h
    exact ⟨hx, fun e he => by cases he⟩
  rw [if_neg hy] at h
  by_cases hc : s.control.isEmpty = false
  · rw [if_pos hc] at h
    obtain ⟨hx', hev⟩ := stepEscape_bounds pal width s b hw hx s' ev h
    exact ⟨hx', fun e he => by rw [hev] at he; cases he⟩
  rw [if_neg hc] at h
  repeat' split at h
  all_goals cases h
  all_goals refine ⟨by dsimp only; omega, fun e he => ?_⟩
  all_goals cases he
  all_goals exact ⟨hx, by show s.y < height; omega⟩

theorem runFrom_bounds (pal : Fin 16 → Rgb) {width height : Nat} (hw : 1 ≤ width) :
    ∀ (bytes : List Nat) (s : RState), s.x < width →
      ∀ e ∈ (runFrom pal width height s bytes).1, e.x < width ∧ e.y < height := by
  intro bytes
  induction bytes with
  | nil =>
    intro s hx e he
    simp [runFrom] at he
  | cons b rest ih =>
    intro s hx e he
    unfold runFrom at he
    cases hstep : step pal width height s b with
    | error err =>
      rw [hstep] at he
      simp at he
    | ok pr =>
      obtain ⟨s', ev⟩ := pr
      rw [hstep] at he
      obtain ⟨hx', hev⟩ := step_ok_bounds pal width height s b hw hx s' ev hstep
      dsimp only at he
      rcases hp : runFrom pal width height s' rest with ⟨evs, r⟩
      rw [hp] at he
      dsimp only at he
      rcases List.mem_append.1 he with h1 | h2
      · cases ev with
        | none => simp [Option.toList] at h1
        | some e0 =>
          simp only [Option.toList] at h1
          rw [List.mem_singleton.1 h1]
          exact hev e0 rfl
      · have := ih s' hx' e
        rw [hp] at this
        exact this h2

/-- C10: every glyph event the state machine emits lies strictly inside the
resolved grid — `x` below the resolved width and `y` below the resolved
height (both of which are at least 1, falling back to 80×25 when a dimension
is zero): the printable-byte wrap, the clamped cursor-right move and the
top-of-loop height guard keep every emitted position inside the grid. -/
theorem c10_events_in_bounds (m : Meta) (pal : Fin 16 → Rgb) (bytes : List Nat) (e : Ev)
    (he : e ∈ (processBytes pal m.resolvedWidth m.resolvedHeight bytes).1) :
    e.x < m.resolvedWidth ∧ e.y < m.resolvedHeight := by
  have hw : 1 ≤ m.resolvedWidth := by
    simp only [Meta.resolvedWidth, Meta.default]
    split <;> omega
  exact runFrom_bounds pal hw bytes _ (show 0 < m.resolvedWidth from hw) e he

/-- C10 witness: a single printable byte on the default 80×25 grid, via
`c10_events_in_bounds`. -/
theorem c10_witness :
    (({ byte := 0x41, x := 0, y := 0, bg := (0, 0, 0), fg := (0, 0, 0) } : Ev) ∈
      (processBytes (fun _ => (0, 0, 0))
        Meta.default.resolvedWidth Meta.default.resolvedHeight [0x41]).1) ∧
    (({ byte := 0x41, x := 0, y := 0, bg := (0, 0, 0), fg := (0, 0, 0) } : Ev).x <
        Meta.default.resolvedWidth ∧
     ({ byte := 0x41, x := 0, y := 0, bg := (0, 0, 0), fg := (0, 0, 0) } : Ev).y <
        Meta.default.resolvedHeight) :=
  ⟨by decide,
   c10_events_in_bounds Meta.default (fun _ => (0, 0, 0)) [0x41] _ (by decide)⟩


theorem enum_entry {p : Nat × Char} (hp : p ∈ CP437_TO_UTF8.enum) :
    CP437_TO_UTF8.getD p.1 (Char.ofNat 0x20) = p.2 := by
  have h := List.mem_enum_iff_getElem?.1 hp
  rw [List.getD_eq_getElem?_getD, h]
  rfl

theorem foldl_lookup_sound (c : Char) :
    ∀ (l : List (Nat × Char)) (acc : Option Nat),
      (∀ i, acc = some i → CP437_TO_UTF8.getD i (Char.ofNat 0x20) = c) →
      (∀ p ∈ l, CP437_TO_UTF8.getD p.1 (Char.ofNat 0x20) = p.2) →
      ∀ i, l.foldl (fun a p => if p.2 = c then some p.1 else a) acc = some i →
        CP437_TO_UTF8.getD i (Char.ofNat 0x20) = c := by
  intro l
  induction l with
  | nil =>
    intro acc hacc _ i h
    exact hacc i (by simpa using h)
  | cons p t ih =>
    intro acc hacc hmem i h
    rw [List.foldl_cons] at h
    refine ih _ ?_ (fun q hq => hmem q (List.mem_cons_of_mem _ hq)) i h
    intro j hj
    by_cases hp : p.2 = c
    · rw [if_pos hp] at hj
      cases hj
      rw [hmem p (List.mem_cons_self _ _)]
      exact hp
    · rw [if_neg hp] at hj
      exact hacc j hj

theorem lookup_sound {c : Char} {b : Nat} (h : UTF8_TO_CP437 c = some b) :
    CP437_TO_UTF8.getD b (Char.ofNat 0x20) = c :=
  foldl_lookup_sound c CP437_TO_UTF8.enum none (by intro i hi; cases hi)
    (fun p hp => enum_entry hp) b h

theorem foldl_lookup_isSome (c : Char) :
    ∀ (l : List (Nat × Char)) (acc : Option Nat),
      (acc.isSome = true ∨ ∃ p ∈ l, p.2 = c) →
      (l.foldl (fun a p => if p.2 = c then some p.1 else a) acc).isSome = true := by
  intro l
  induction l with
  | nil =>
    intro acc h
    rcases h with h | ⟨p, hp, _⟩
    · simpa using h
    · cases hp
  | cons p t ih =>
    intro acc h
    rw [List.foldl_cons]
    by_cases hp : p.2 = c
    · exact ih _ (Or.inl (by rw [if_pos hp]; rfl))
    · refine ih _ ?_
      rcases h with h | ⟨q, hq, hqc⟩
      · exact Or.inl (by rw [if_neg hp]; exact h)
      · rcases List.mem_cons.1 hq with rfl | hq'
        · exact absurd hqc hp
        · exact Or.inr ⟨q, hq', hqc⟩

theorem lookup_total {c : Char} (h : c ∈ CP437_TO_UTF8) : ∃ b, UTF8_TO_CP437 c = some b := by
  obtain ⟨i, hi, hget⟩ := List.mem_iff_getElem.1 h
  have hmem : (i, c) ∈ CP437_TO_UTF8.enum := by
    rw [List.mem_enum_iff_getElem?]
    simp [List.getElem?_eq_getElem hi, hget]
  exact Option.isSome_iff_exists.1
    (foldl_lookup_isSome c CP437_TO_UTF8.enum none (Or.inr ⟨(i, c), hmem, rfl⟩))

theorem to_cp437_ok_of_mem {s : List Char} (h : ∀ c ∈ s, c ∈ CP437_TO_UTF8) :
    ∃ bs, to_cp437 s = Except.ok bs ∧ bs.length = s.length ∧ to_utf8 bs = s := by
  induction s with
  | nil => exact ⟨[], rfl, rfl, rfl⟩
  | cons c t ih =>
    obtain ⟨b, hb⟩ := lookup_total (h c (List.mem_cons_self _ _))
    obtain ⟨bs, hbs, hlen, hdec⟩ := ih (fun x hx => h x (List.mem_cons_of_mem _ hx))
    refine ⟨b :: bs, ?_, by simp [hlen], ?_⟩
    · unfold to_cp437 at hbs ⊢
      rw [List.mapM_cons, hb, hbs]
      rfl
    · unfold to_utf8 at hdec ⊢
      rw [List.map_cons, lookup_sound hb, hdec]

theorem to_cp437_append_ok {s t : List Char} {bs ts : List Nat}
    (h1 : to_cp437 s = Except.ok bs) (h2 : to_cp437 t = Except.ok ts) :
    to_cp437 (s ++ t) = Except.ok (bs ++ ts) := by
  unfold to_cp437 at h1 h2 ⊢
  rw [List.mapM_append, h1, h2]
  rfl

theorem to_cp437_replicate {c : Char} {b : Nat} (h : UTF8_TO_CP437 c = some b) (k : Nat) :
    to_cp437 (List.replicate k c) = Except.ok (List.replicate k b) := by
  induction k with
  | zero => rfl
  | succ k ih =>
    rw [List.replicate_succ, List.replicate_succ]
    unfold to_cp437 at ih ⊢
    rw [List.mapM_cons, h, ih]
    rfl

theorem length_le_utf8Len (s : List Char) : s.length ≤ utf8Len s := by
  induction s with
  | nil => simp [utf8Len]
  | cons c t ih =>
    have hpos : 1 ≤ c.utf8Size := Char.utf8Size_pos c
    simp only [utf8Len, List.map_cons, List.sum_cons, List.length_cons]
    simp only [utf8Len] at ih
    omega

theorem check_char_ok {c : Char} (h : check_char c = Except.ok ()) :
    c ∈ CP437_TO_UTF8 := by
  unfold check_char at h
  split at h
  · cases h
  · split at h
    · cases h
    · rename_i hc
      simpa using hc

theorem check_chars_all {name : String} :
    ∀ {s : List Char}, check_chars name s = Except.ok () →
      ∀ c ∈ s, check_char c = Except.ok () := by
  intro s
  induction s with
  | nil =>
    intro _ c hc
    cases hc
  | cons a t ih =>
    intro h c hc
    unfold check_chars at h
    cases ha : check_char a with
    | error e => rw [ha] at h; cases h
    | ok u =>
      cases u
      rw [ha] at h
      rcases List.mem_cons.1 hc with rfl | hc'
      · exact ha
      · exact ih h c hc'

theorem check_str_facts {s : List Char} {name : String} {w : Nat}
    (h : check_str s name w = Except.ok ()) :
    utf8Len s ≤ w ∧ s.length ≤ w ∧ Encodable s := by
  unfold check_str at h
  split at h
  · cases h
  · rename_i hlen
    have h1 : utf8Len s ≤ w := by omega
    exact ⟨h1, le_trans (length_le_utf8Len s) h1,
      fun c hc => check_char_ok (check_chars_all h c hc)⟩

theorem check_ok_parts {m : Meta} (h : check (some m) = Except.ok ()) :
    check_title (some m) = Except.ok () ∧ check_author (some m) = Except.ok () ∧
    check_group (some m) = Except.ok () ∧ check_date (some m) = Except.ok () ∧
    check_type (some m) = Except.ok () ∧ check_flags (some m) = Except.ok () ∧
    check_font (some m) = Except.ok () ∧ check_notes (some m) = Except.ok () := by
  unfold check at h
  obtain ⟨h1, h⟩ := except_seq_ok h
  obtain ⟨h2, h⟩ := except_seq_ok h
  obtain ⟨h3, h⟩ := except_seq_ok h
  obtain ⟨h4, h⟩ := except_seq_ok h
  obtain ⟨h5, h⟩ := except_seq_ok h
  obtain ⟨h6, h⟩ := except_seq_ok h
  obtain ⟨h7, h8⟩ := except_seq_ok h
  exact ⟨h1, h2, h3, h4, h5, h6, h7, h8⟩

theorem check_notes_loop_all {meta : Option Meta} :
    ∀ (k i : Nat), check_notes_loop meta i k = Except.ok () →
      ∀ j, i ≤ j → j < i + k → check_note meta j = Except.ok () := by
  intro k
  induction k with
  | zero =>
    intro i _ j h1 h2
    omega
  | succ k ih =>
    intro i h j h1 h2
    unfold check_notes_loop at h
    cases hn : check_note meta i with
    | error e => rw [hn] at h; cases h
    | ok u =>
      cases u
      rw [hn] at h
      rcases Nat.eq_or_lt_of_le h1 with rfl | hlt
      · exact hn
      · exact ih (i + 1) h j hlt (by omega)

theorem check_notes_facts {m : Meta} (h : check_notes (some m) = Except.ok ()) :
    m.notes.length ≤ 255 ∧ ∀ j, j < m.notes.length → check_note (some m) j = Except.ok () := by
  simp only [check_notes] at h
  split at h
  · cases h
  · rename_i hlen
    exact ⟨by omega, fun j hj => check_notes_loop_all _ 0 h j (by omega) (by omega)⟩

theorem check_font_cases {m : Meta} (h : check_font (some m) = Except.ok ()) :
    m.font = "IBM VGA".data ∨ m.font = "IBM VGA 437".data ∨ m.font = [] := by
  simp only [check_font] at h
  split at h
  · cases h
  · rename_i hc
    have hmem := List.mem_of_elem_eq_true (not_not.1 hc)
    simpa using hmem

theorem dropWhile_replicate_append (c : Char) (k : Nat) (l : List Char) :
    List.dropWhile (fun a => a = c) (List.replicate k c ++ l) =
      List.dropWhile (fun a => a = c) l := by
  induction k with
  | zero => rfl
  | succ k ih => simp [List.replicate_succ, List.dropWhile_cons, ih]

theorem trimCh_append_replicate (c : Char) (s : List Char) (k : Nat) :
    trimCh c (s ++ List.replicate k c) = trimCh c s := by
  unfold trimCh
  rw [List.dropWhile_append]
  by_cases hd : (List.dropWhile (fun a => a = c) s).isEmpty
  · rw [if_pos hd]
    have hrep : List.dropWhile (fun a => a = c) (List.replicate k c) = [] := by
      have h0 := dropWhile_replicate_append c k []
      simp only [List.append_nil, List.dropWhile_nil] at h0
      exact h0
    have hs : List.dropWhile (fun a => a = c) s = [] := List.isEmpty_iff.1 hd
    rw [hrep, hs]
  · rw [if_neg hd]
    rw [List.reverse_append, List.reverse_replicate, dropWhile_replicate_append]

theorem trimCh_padTo {c : Char} {s : List Char} {w : Nat} (hs : trimCh c s = s) :
    trimCh c (padTo w c s) = s := by
  unfold padTo
  rw [trimCh_append_replicate, hs]

theorem drop_tail_of_append {α : Type} (xs ys : List α) {k : Nat} (h : ys.length = k) :
    (xs ++ ys).drop ((xs ++ ys).length - k) = ys := by
  have hl : (xs ++ ys).length - k = xs.length := by
    simp [List.length_append, h]
  rw [hl, List.drop_left]

theorem sliceFE_of_append {raw front seg rest : List Nat} {a b : Nat}
    (hraw : raw = front ++ (seg ++ rest)) (htail : seg.length + rest.length = a)
    (hseg : seg.length = a - b) : sliceFE raw a b = seg := by
  subst hraw
  unfold sliceFE
  rw [drop_tail_of_append _ _ (by simp [htail])]
  rw [← hseg, List.take_left]

theorem getD_of_append {α : Type} (xs ys : List α) (d : α) {k : Nat} (h : k = xs.length) :
    (xs ++ ys).getD k d = ys.getD 0 d := by
  subst h
  induction xs with
  | nil => rfl
  | cons x t ih => simpa [List.getD_cons_succ] using ih

theorem lastN_append {α : Type} (xs ys : List α) {n : Nat} (h : n ≤ ys.length) :
    lastN n (xs ++ ys) = lastN n ys := by
  unfold lastN
  have he : (xs ++ ys).length - n = xs.length + (ys.length - n) := by
    simp [List.length_append]
    omega
  rw [he, List.drop_append]

theorem lastN_of_length_eq {α : Type} {xs : List α} {n : Nat} (h : xs.length = n) :
    lastN n xs = xs := by
  unfold lastN
  simp [h]

theorem leBytes_length (k : Nat) : ∀ v, (leBytes k v).length = k := by
  induction k with
  | zero => intro v; rfl
  | succ k ih => intro v; simp [leBytes, ih]

theorem leVal_leBytes {k : Nat} : ∀ {v : Nat}, v < 256 ^ k → leVal (leBytes k v) = v := by
  induction k with
  | zero =>
    intro v h
    simp only [pow_zero, Nat.lt_one_iff] at h
    subst h
    rfl
  | succ k ih =>
    intro v h
    have hdiv : v / 256 < 256 ^ k := by
      rw [Nat.div_lt_iff_lt_mul (by omega)]
      calc v < 256 ^ (k + 1) := h
        _ = 256 ^ k * 256 := by ring
    show v % 256 + 256 * leVal (leBytes k (v / 256)) = v
    rw [ih hdiv]
    omega

theorem encPad_ok {w : Nat} {fill : Char} {s : List Char}
    (hf : fill ∈ CP437_TO_UTF8) (hs : Encodable s) :
    to_cp437 (padTo w fill s) = Except.ok (encPad w fill s) ∧
    (s.length ≤ w → (encPad w fill s).length = w) ∧
    to_utf8 (encPad w fill s) = padTo w fill s := by
  have hmem : ∀ c ∈ padTo w fill s, c ∈ CP437_TO_UTF8 := by
    intro c hc
    rcases List.mem_append.1 hc with h | h
    · exact hs c h
    · rw [List.eq_of_mem_replicate h]
      exact hf
  obtain ⟨bs, h1, h2, h3⟩ := to_cp437_ok_of_mem hmem
  have he : encPad w fill s = bs := by
    unfold encPad
    rw [h1]
    rfl
  rw [he]
  refine ⟨h1, fun hlen => ?_, h3⟩
  rw [h2]
  unfold padTo
  simp only [List.length_append, List.length_replicate]
  omega


theorem spChar_mem : spChar ∈ CP437_TO_UTF8 := by decide

theorem nulChar_mem : nulChar ∈ CP437_TO_UTF8 := by decide

theorem digit_char_mem : ∀ n, n < 58 → 48 ≤ n → Char.ofNat n ∈ CP437_TO_UTF8 := by decide

theorem check_date_encodable {m : Meta} (h : check_date (some m) = Except.ok ()) :
    Encodable m.date ∧ m.date.length ≤ 8 := by
  simp only [check_date] at h
  split at h
  · rename_i hemp
    rw [List.isEmpty_iff.1 hemp]
    exact ⟨(fun c hc => nomatch hc), by simp⟩
  split at h
  · cases h
  · rename_i hemp hlen
    cases hp : parse_yyyymmdd m.date with
    | error e => rw [hp] at h; cases h
    | ok u =>
      simp only [parse_yyyymmdd] at hp
      split at hp
      · cases hp
      · rename_i hall
        rw [not_not] at hall
        have hdig : ∀ c ∈ m.date, 0x30 ≤ c.toNat ∧ c.toNat ≤ 0x39 := by
          intro c hc
          have := List.all_eq_true.1 hall c hc
          simpa using this
        constructor
        · intro c hc
          obtain ⟨h1, h2⟩ := hdig c hc
          have hofNat : Char.ofNat c.toNat = c := Char.ofNat_toNat c
          rw [← hofNat]
          exact digit_char_mem c.toNat (by omega) h1
        · have : utf8Len m.date = 8 := by omega
          calc m.date.length ≤ utf8Len m.date := length_le_utf8Len _
            _ = 8 := this

theorem notes_mapM_ok {notes : List (List Char)} (h : ∀ note ∈ notes, Encodable note) :
    notes.mapM (fun note => to_cp437 (padTo 64 spChar note)) =
      Except.ok (notes.map (encPad 64 spChar)) := by
  induction notes with
  | nil => rfl
  | cons n t ih =>
    rw [List.mapM_cons, (encPad_ok spChar_mem (h n (List.mem_cons_self _ _))).1,
      ih (fun x hx => h x (List.mem_cons_of_mem _ hx))]
    rfl

theorem write_meta_ok {m : Meta}
    (ht : Encodable m.title) (ha : Encodable m.author) (hg : Encodable m.group)
    (hd : Encodable m.date) (hf : Encodable m.font)
    (hn : ∀ note ∈ m.notes, Encodable note) :
    write_meta m = Except.ok (sauceRecord m) := by
  unfold write_meta
  rw [notes_mapM_ok hn, (encPad_ok spChar_mem ht).1, (encPad_ok spChar_mem ha).1,
    (encPad_ok spChar_mem hg).1, (encPad_ok spChar_mem hd).1, (encPad_ok nulChar_mem hf).1]
  rfl

theorem read_raw_append (body rec pre tail128 : List Nat) (cnt : Nat)
    (hrec : rec = pre ++ tail128) (h128 : tail128.length = 128)
    (htag : tail128.take 7 = sauceTag)
    (hcnt : tail128.getD 104 0 = cnt)
    (hlen : rec.length = cnt * 64 + (if cnt > 0 then 134 else 129))
    (hhead : rec.getD 0 0 = 0x1A)
    (hcomnt : cnt > 0 → (rec.drop 1).take 5 = comntTag) :
    read_raw (body ++ rec) = Except.ok (some rec) := by
  have hL : 129 ≤ rec.length := by
    rw [hlen]
    split <;> omega
  have h128le : 128 ≤ rec.length := by omega
  have hlast128 : lastN 128 (body ++ rec) = tail128 := by
    rw [lastN_append _ _ h128le, hrec,
      lastN_append _ _ (le_of_eq h128.symm), lastN_of_length_eq h128]
  have hoff : rrOffset (body ++ rec) = rec.length := by
    unfold rrOffset
    rw [hlast128, hcnt, ← hlen]
  have hlastrec : lastN rec.length (body ++ rec) = rec := by
    rw [lastN_append _ _ (le_refl _), lastN_of_length_eq rfl]
  unfold read_raw
  rw [if_neg (by simp only [List.length_append]; omega)]
  rw [if_neg (by rw [hlast128, htag]; simp)]
  rw [hoff, hlastrec]
  rw [if_neg (by simp only [List.length_append]; omega)]
  have hcond : ¬ (rec.getD 0 0 ≠ 0x1A ∨ (rec.length > 129 ∧ (rec.drop 1).take 5 ≠ comntTag)) := by
    intro hor
    rcases hor with hbad | ⟨hgt, hne⟩
    · exact hbad hhead
    · have hcpos : cnt > 0 := by
        by_contra hc0
        have hc0' : cnt = 0 := by omega
        rw [hc0'] at hlen
        simp at hlen
        omega
      exact hne (hcomnt hcpos)
  rw [if_neg hcond]

theorem flatten_chunk :
    ∀ (chunks : List (List Nat)), (∀ ch ∈ chunks, ch.length = 64) →
      ∀ (rest : List Nat) (j : Nat), j < chunks.length →
        ((chunks.flatten ++ rest).drop (64 * j)).take 64 = chunks.getD j [] := by
  intro chunks
  induction chunks with
  | nil =>
    intro _ rest j hj
    simp at hj
  | cons ch t ih =>
    intro h64 rest j hj
    have hlen : ch.length = 64 := h64 ch (List.mem_cons_self _ _)
    cases j with
    | zero =>
      simp only [List.flatten_cons, Nat.mul_zero, List.drop_zero]
      rw [List.append_assoc, ← hlen, List.take_left]
      rfl
    | succ j =>
      simp only [List.flatten_cons]
      rw [List.append_assoc]
      have harith : 64 * (j + 1) = ch.length + 64 * j := by
        rw [hlen]
        ring
      rw [harith, List.drop_append]
      have := ih (fun c hc => h64 c (List.mem_cons_of_mem _ hc)) rest j
        (by simpa using Nat.lt_of_succ_lt_succ hj)
      rw [this]
      rfl

theorem parse_meta_fields (pre T A G D SZ W H Z4 F : List Nat) (ty1 ty2 cb fb : Nat)
    {R : List Nat}
    (hR : R = pre ++ (T ++ (A ++ (G ++ (D ++ (SZ ++ ([ty1, ty2] ++ (W ++ (H ++ (Z4 ++
      ([cb] ++ ([fb] ++ F))))))))))))
    (hT : T.length = 35) (hA : A.length = 20) (hG : G.length = 20) (hD : D.length = 8)
    (hSZ : SZ.length = 4) (hW : W.length = 2) (hH : H.length = 2)
    (hZ4 : Z4.length = 4) (hF : F.length = 22) :
    sliceFE R 121 86 = T ∧ sliceFE R 86 66 = A ∧ sliceFE R 66 46 = G ∧
    sliceFE R 46 38 = D ∧ sliceFE R 38 34 = SZ ∧
    R.getD (R.length - 34) 0 = ty1 ∧ R.getD (R.length - 33) 0 = ty2 ∧
    sliceFE R 32 30 = W ∧ sliceFE R 30 28 = H ∧
    R.getD (R.length - 24) 0 = cb ∧ R.getD (R.length - 23) 0 = fb ∧
    R.drop (R.length - 22) = F := by
  have hRlen : R.length = pre.length + 121 := by
    subst hR
    simp [List.length_append, hT, hA, hG, hD, hSZ, hW, hH, hZ4, hF]
  refine ⟨?_, ?_, ?_, ?_, ?_, ?_, ?_, ?_, ?_, ?_, ?_, ?_⟩
  · refine @sliceFE_of_append R pre T
      (A ++ (G ++ (D ++ (SZ ++ ([ty1, ty2] ++ (W ++ (H ++ (Z4 ++ ([cb] ++ ([fb] ++ F)))))))))) 121 86 ?_ ?_ ?_
    · rw [hR]
    · simp [List.length_append, hT, hA, hG, hD, hSZ, hW, hH, hZ4, hF]
    · omega
  · refine @sliceFE_of_append R (pre ++ T) A
      (G ++ (D ++ (SZ ++ ([ty1, ty2] ++ (W ++ (H ++ (Z4 ++ ([cb] ++ ([fb] ++ F))))))))) 86 66 ?_ ?_ ?_
    · rw [hR, List.append_assoc]
    · simp [List.length_append, hA, hG, hD, hSZ, hW, hH, hZ4, hF]
    · omega
  · refine @sliceFE_of_append R ((pre ++ T) ++ A) G
      (D ++ (SZ ++ ([ty1, ty2] ++ (W ++ (H ++ (Z4 ++ ([cb] ++ ([fb] ++ F)))))))) 66 46 ?_ ?_ ?_
    · rw [hR]
      simp [List.append_assoc]
    · simp [List.length_append, hG, hD, hSZ, hW, hH, hZ4, hF]
    · omega
  · refine @sliceFE_of_append R (((pre ++ T) ++ A) ++ G) D
      (SZ ++ ([ty1, ty2] ++ (W ++ (H ++ (Z4 ++ ([cb] ++ ([fb] ++ F))))))) 46 38 ?_ ?_ ?_
    · rw [hR]
      simp [List.append_assoc]
    · simp [List.length_append, hD, hSZ, hW, hH, hZ4, hF]
    · omega
  · refine @sliceFE_of_append R ((((pre ++ T) ++ A) ++ G) ++ D) SZ
      ([ty1, ty2] ++ (W ++ (H ++ (Z4 ++ ([cb] ++ ([fb] ++ F)))))) 38 34 ?_ ?_ ?_
    · rw [hR]
      simp [List.append_assoc]
    · simp [List.length_append, hSZ, hW, hH, hZ4, hF]
    · omega
  · have hsplit : R = ((((pre ++ T) ++ A) ++ G) ++ D ++ SZ) ++
      ([ty1, ty2] ++ (W ++ (H ++ (Z4 ++ ([cb] ++ ([fb] ++ F)))))) := by
      rw [hR]
      simp [List.append_assoc]
    rw [hsplit, getD_of_append _ _ 0
      (by simp [List.length_append, hRlen, hT, hA, hG, hD, hSZ, hW, hH, hZ4, hF, hsplit])]
    rfl
  · have hsplit : R = ((((pre ++ T) ++ A) ++ G) ++ D ++ SZ ++ [ty1]) ++
      ([ty2] ++ (W ++ (H ++ (Z4 ++ ([cb] ++ ([fb] ++ F)))))) := by
      rw [hR]
      simp [List.append_assoc]
    rw [hsplit, getD_of_append _ _ 0
      (by simp [List.length_append, hRlen, hT, hA, hG, hD, hSZ, hW, hH, hZ4, hF, hsplit])]
    rfl
  · refine @sliceFE_of_append R
      ((((pre ++ T) ++ A) ++ G) ++ D ++ SZ ++ [ty1, ty2]) W
      (H ++ (Z4 ++ ([cb] ++ ([fb] ++ F)))) 32 30 ?_ ?_ ?_
    · rw [hR]
      simp [List.append_assoc]
    · simp [List.length_append, hW, hH, hZ4, hF]
    · omega
  · refine @sliceFE_of_append R
      ((((pre ++ T) ++ A) ++ G) ++ D ++ SZ ++ [ty1, ty2] ++ W) H
      (Z4 ++ ([cb] ++ ([fb] ++ F))) 30 28 ?_ ?_ ?_
    · rw [hR]
      simp [List.append_assoc]
    · simp [List.length_append, hH, hZ4, hF]
    · omega
  · have hsplit : R = ((((pre ++ T) ++ A) ++ G) ++ D ++ SZ ++ [ty1, ty2] ++ W ++ H ++ Z4) ++
      ([cb] ++ ([fb] ++ F)) := by
      rw [hR]
      simp [List.append_assoc]
    rw [hsplit, getD_of_append _ _ 0
      (by simp [List.length_append, hRlen, hT, hA, hG, hD, hSZ, hW, hH, hZ4, hF, hsplit])]
    rfl
  · have hsplit : R = ((((pre ++ T) ++ A) ++ G) ++ D ++ SZ ++ [ty1, ty2] ++ W ++ H ++ Z4 ++
      [cb]) ++ ([fb] ++ F) := by
      rw [hR]
      simp [List.append_assoc]
    rw [hsplit, getD_of_append _ _ 0
      (by simp [List.length_append, hRlen, hT, hA, hG, hD, hSZ, hW, hH, hZ4, hF, hsplit])]
    rfl
  · have hfr : R = ((((pre ++ T) ++ A) ++ G) ++ D ++ SZ ++ [ty1, ty2] ++ W ++ H ++ Z4 ++
        [cb] ++ [fb]) ++ F := by
      rw [hR]
      simp [List.append_assoc]
    rw [hfr, drop_tail_of_append _ _ hF]


theorem flatten_length_64 :
    ∀ (chunks : List (List Nat)), (∀ ch ∈ chunks, ch.length = 64) →
      chunks.flatten.length = 64 * chunks.length := by
  intro chunks
  induction chunks with
  | nil => intro _; rfl
  | cons ch t ih =>
    intro h64
    simp only [List.flatten_cons, List.length_append, List.length_cons,
      h64 ch (List.mem_cons_self _ _), ih (fun c hc => h64 c (List.mem_cons_of_mem _ hc))]
    ring

theorem sauce_roundtrip_core (body : List Nat) (m : Meta)
    (hchk : check (some m) = Except.ok ())
    (hsize : m.size < 2 ^ 32) (hwd : m.width < 2 ^ 16) (hht : m.height < 2 ^ 16)
    (hfl : m.flags < 256) (ht1 : m.type.1 < 256) (ht2 : m.type.2 < 256)
    (hti : trimCh spChar m.title = m.title) (hau : trimCh spChar m.author = m.author)
    (hgr : trimCh spChar m.group = m.group) (hda : trimCh spChar m.date = m.date)
    (hno : ∀ s ∈ m.notes, trimCh spChar s = s) :
    read (body ++ sauceRecord m) = Except.ok (some m) := by
  obtain ⟨hcT, hcA, hcG, hcD, _, _, hcF, hcN⟩ := check_ok_parts hchk
  simp only [check_title] at hcT
  simp only [check_author] at hcA
  simp only [check_group] at hcG
  obtain ⟨_, hTl, hTe⟩ := check_str_facts hcT
  obtain ⟨_, hAl, hAe⟩ := check_str_facts hcA
  obtain ⟨_, hGl, hGe⟩ := check_str_facts hcG
  obtain ⟨hDe, hDl⟩ := check_date_encodable hcD
  have hfont3 : Encodable m.font ∧ m.font.length ≤ 22 ∧ trimCh nulChar m.font = m.font := by
    rcases check_font_cases hcF with hf | hf | hf <;> rw [hf] <;>
      exact ⟨by decide, by decide, by decide⟩
  obtain ⟨hFe, hFl, hFtrim⟩ := hfont3
  obtain ⟨hNlen, hNall⟩ := check_notes_facts hcN
  have hNgetD : ∀ j, j < m.notes.length →
      Encodable (m.notes.getD j []) ∧ (m.notes.getD j []).length ≤ 64 := by
    intro j hj
    have hcn := hNall j hj
    simp only [check_note] at hcn
    obtain ⟨_, hl, he⟩ := check_str_facts hcn
    exact ⟨he, hl⟩
  have hNenc : ∀ note ∈ m.notes, Encodable note ∧ note.length ≤ 64 := by
    intro note hnote
    obtain ⟨j, hj, hget⟩ := List.mem_iff_getElem.1 hnote
    have hjf := hNgetD j hj
    rw [List.getD_eq_getElem _ _ hj, hget] at hjf
    exact hjf
  have eT := @encPad_ok 35 spChar m.title spChar_mem hTe
  have eA := @encPad_ok 20 spChar m.author spChar_mem hAe
  have eG := @encPad_ok 20 spChar m.group spChar_mem hGe
  have eD := @encPad_ok 8 spChar m.date spChar_mem hDe
  have eF := @encPad_ok 22 nulChar m.font nulChar_mem hFe
  have eTlen := eT.2.1 hTl
  have eAlen := eA.2.1 hAl
  have eGlen := eG.2.1 hGl
  have eDlen := eD.2.1 hDl
  have eFlen := eF.2.1 hFl
  have hchunk64 : ∀ ch ∈ m.notes.map (encPad 64 spChar), ch.length = 64 := by
    intro ch hch
    obtain ⟨note, hnote, rfl⟩ := List.mem_map.1 hch
    exact (encPad_ok spChar_mem (hNenc note hnote).1).2.1 (hNenc note hnote).2
  have hNBlen : (m.notes.map (encPad 64 spChar)).flatten.length = 64 * m.notes.length := by
    rw [flatten_length_64 _ hchunk64, List.length_map]
  have hcntmod : m.notes.length % 256 = m.notes.length :=
    Nat.mod_eq_of_lt (by omega)
  have hlen_zero : m.notes.isEmpty = true ↔ m.notes.length = 0 := by
    rw [List.isEmpty_iff, List.length_eq_zero]
  have hRlen0 : m.notes.isEmpty = true → (sauceRecord m).length = 129 := by
    intro hne
    simp only [sauceRecord, hne, if_true]
    simp [sauceTag, List.length_append, eTlen, eAlen, eGlen, eDlen, eFlen, leBytes_length]
  have hRlen1 : m.notes.isEmpty = false →
      (sauceRecord m).length = 134 + 64 * m.notes.length := by
    intro hne
    simp only [sauceRecord, hne, if_false]
    simp [sauceTag, comntTag, List.length_append, eTlen, eAlen, eGlen, eDlen, eFlen,
      leBytes_length, hNBlen]
    omega
  have hloc : read_raw (body ++ sauceRecord m) = Except.ok (some (sauceRecord m)) := by
    refine read_raw_append body (sauceRecord m)
      ([0x1A] ++ (if m.notes.isEmpty then [] else comntTag ++ (m.notes.map (encPad 64 spChar)).flatten))
      (sauceTag ++ (encPad 35 spChar m.title ++ (encPad 20 spChar m.author ++ (encPad 20 spChar m.group ++ (encPad 8 spChar m.date ++ (leBytes 4 m.size ++ ([m.type.1 % 256, m.type.2 % 256] ++ (leBytes 2 m.width ++ (leBytes 2 m.height ++ (leBytes 4 0 ++ ([m.notes.length % 256] ++ ([m.flags % 256] ++ (encPad 22 nulChar m.font)))))))))))))
      m.notes.length ?_ ?_ ?_ ?_ ?_ ?_ ?_
    · simp [sauceRecord, List.append_assoc]
    · simp [sauceTag, List.length_append, eTlen, eAlen, eGlen, eDlen, eFlen, leBytes_length]
    · have h7 : sauceTag.length = 7 := rfl
      rw [← h7, List.take_left]
    · have hsplit : sauceTag ++ (encPad 35 spChar m.title ++ (encPad 20 spChar m.author ++ (encPad 20 spChar m.group ++ (encPad 8 spChar m.date ++ (leBytes 4 m.size ++ ([m.type.1 % 256, m.type.2 % 256] ++ (leBytes 2 m.width ++ (leBytes 2 m.height ++ (leBytes 4 0 ++ ([m.notes.length % 256] ++ ([m.flags % 256] ++ (encPad 22 nulChar m.font)))))))))))) =
          (sauceTag ++ encPad 35 spChar m.title ++ encPad 20 spChar m.author ++ encPad 20 spChar m.group ++ encPad 8 spChar m.date ++ leBytes 4 m.size ++ [m.type.1 % 256, m.type.2 % 256] ++ leBytes 2 m.width ++ leBytes 2 m.height ++ leBytes 4 0) ++
          ([m.notes.length % 256] ++ ([m.flags % 256] ++ (encPad 22 nulChar m.font))) := by
        simp [List.append_assoc]
      rw [hsplit, getD_of_append _ _ 0
        (by simp [sauceTag, List.length_append, eTlen, eAlen, eGlen, eDlen, leBytes_length])]
      exact hcntmod
    · cases hne : m.notes.isEmpty with
      | true =>
        have h0 : m.notes.length = 0 := hlen_zero.1 hne
        rw [hRlen0 hne, h0]
        simp
      | false =>
        have h0 : 0 < m.notes.length := by
          rcases Nat.eq_zero_or_pos m.notes.length with hz0 | hp
          · rw [hlen_zero.2 hz0] at hne
            simp at hne
          · exact hp
        rw [hRlen1 hne, if_pos h0]
        omega
    · rfl
    · intro hpos
      have hnef : m.notes.isEmpty = false := by
        cases hb : m.notes.isEmpty
        · rfl
        · rw [hlen_zero.1 hb] at hpos
          omega
      have hshape : sauceRecord m = 0x1A :: (comntTag ++ ((m.notes.map (encPad 64 spChar)).flatten ++ (sauceTag ++ (encPad 35 spChar m.title ++ (encPad 20 spChar m.author ++ (encPad 20 spChar m.group ++ (encPad 8 spChar m.date ++ (leBytes 4 m.size ++ ([m.type.1 % 256, m.type.2 % 256] ++ (leBytes 2 m.width ++ (leBytes 2 m.height ++ (leBytes 4 0 ++ ([m.notes.length % 256] ++ ([m.flags % 256] ++ (encPad 22 nulChar m.font))))))))))))))) := by
        simp [sauceRecord, hnef, List.append_assoc]
      rw [hshape]
      simp only [List.drop_succ_cons, List.drop_zero]
      have h5 : comntTag.length = 5 := rfl
      rw [← h5, List.take_left]
  have hparse : parse_meta (sauceRecord m) = m := by
    obtain ⟨pT, pA, pG, pD, pSZ, pTy1, pTy2, pW, pH, pCB, pFB, pF⟩ :=
      @parse_meta_fields
        ([0x1A] ++ ((if m.notes.isEmpty then [] else comntTag ++ (m.notes.map (encPad 64 spChar)).flatten) ++ sauceTag))
        (encPad 35 spChar m.title) (encPad 20 spChar m.author) (encPad 20 spChar m.group)
        (encPad 8 spChar m.date) (leBytes 4 m.size) (leBytes 2 m.width) (leBytes 2 m.height)
        (leBytes 4 0) (encPad 22 nulChar m.font)
        (m.type.1 % 256) (m.type.2 % 256) (m.notes.length % 256) (m.flags % 256)
        (sauceRecord m)
        (by simp [sauceRecord, List.append_assoc])
        eTlen eAlen eGlen eDlen (leBytes_length 4 m.size) (leBytes_length 2 m.width)
        (leBytes_length 2 m.height) (leBytes_length 4 0) eFlen
    have hnotes : ((List.range (m.notes.length % 256)).reverse).map
        (fun i => trimCh spChar (to_utf8
          (((sauceRecord m).drop ((sauceRecord m).length - (i + 3) * 64)).take 64))) =
        m.notes := by
      rw [hcntmod]
      rcases Nat.eq_zero_or_pos m.notes.length with hz | hpos
      · rw [hz]
        simp
        exact List.length_eq_zero.1 hz
      · have hnef : m.notes.isEmpty = false := by
          cases hb : m.notes.isEmpty
          · rfl
          · rw [hlen_zero.1 hb] at hpos
            omega
        have hRlen := hRlen1 hnef
        apply List.ext_getElem
        · simp
        · intro j h1 h2
          rw [List.getElem_map, List.getElem_reverse, List.getElem_range]
          have hj : j < m.notes.length := by simpa using h2
          have harith : (sauceRecord m).length -
              ((List.range m.notes.length).length - 1 - j + 3) * 64 = 6 + 64 * j := by
            rw [hRlen, List.length_range]
            omega
          rw [harith]
          have hshape : sauceRecord m = ([0x1A] ++ comntTag) ++ ((m.notes.map (encPad 64 spChar)).flatten ++ (sauceTag ++ (encPad 35 spChar m.title ++ (encPad 20 spChar m.author ++ (encPad 20 spChar m.group ++ (encPad 8 spChar m.date ++ (leBytes 4 m.size ++ ([m.type.1 % 256, m.type.2 % 256] ++ (leBytes 2 m.width ++ (leBytes 2 m.height ++ (leBytes 4 0 ++ ([m.notes.length % 256] ++ ([m.flags % 256] ++ (encPad 22 nulChar m.font)))))))))))))) := by
            simp [sauceRecord, hnef, List.append_assoc]
          rw [hshape]
          have h6 : (6 : Nat) + 64 * j = ([0x1A] ++ comntTag : List Nat).length + 64 * j := rfl
          rw [h6, List.drop_append]
          rw [flatten_chunk _ hchunk64 _ j (by simpa using hj)]
          have hgd : (m.notes.map (encPad 64 spChar)).getD j [] =
              encPad 64 spChar (m.notes.getD j []) := by
            rw [List.getD_eq_getElem _ _ (by simpa using hj), List.getElem_map,
              List.getD_eq_getElem _ _ hj]
          rw [hgd]
          have hje := hNgetD j hj
          rw [(encPad_ok spChar_mem hje.1).2.2]
          rw [trimCh_padTo (hno _ (by
            rw [List.getD_eq_getElem _ _ hj]
            exact List.getElem_mem _))]
          rw [List.getD_eq_getElem _ _ hj]
    unfold parse_meta
    rw [pT, pA, pG, pD, pSZ, pTy1, pTy2, pW, pH, pCB, pFB, pF]
    rw [eT.2.2, eA.2.2, eG.2.2, eD.2.2, eF.2.2]
    rw [trimCh_padTo hti, trimCh_padTo hau, trimCh_padTo hgr, trimCh_padTo hda,
      trimCh_padTo hFtrim]
    rw [leVal_leBytes (show m.size < 256 ^ 4 by norm_num at hsize ⊢; omega),
      leVal_leBytes (show m.width < 256 ^ 2 by norm_num at hwd ⊢; omega),
      leVal_leBytes (show m.height < 256 ^ 2 by norm_num at hht ⊢; omega)]
    rw [Nat.mod_eq_of_lt ht1, Nat.mod_eq_of_lt ht2, Nat.mod_eq_of_lt hfl]
    rw [hnotes]
  unfold read
  rw [hloc]
  show Except.ok (some (parse_meta (sauceRecord m))) = Except.ok (some m)
  rw [hparse]

set_option maxRecDepth 10000

theorem spChar_code : UTF8_TO_CP437 spChar = some 0x20 := by decide

set_option maxRecDepth 10000

theorem nulChar_code : UTF8_TO_CP437 nulChar = some 0x00 := by decide

theorem except_bind_ok {ε α β : Type} (a : α) (f : α → Except ε β) :
    (Except.ok a >>= f : Except ε β) = f a := rfl

theorem except_pure_eq {ε α : Type} (a : α) : (pure a : Except ε α) = Except.ok a := rfl

theorem spec_pad_eq {fill : Char} {fb : Nat} {s : List Char}
    (hfm : fill ∈ CP437_TO_UTF8) (hfb : UTF8_TO_CP437 fill = some fb)
    (hs : Encodable s) (w : Nat) :
    (to_cp437 s).map (padBytes w fb) = Except.ok (encPad w fill s) := by
  obtain ⟨bs, hbs, hlen, _⟩ := to_cp437_ok_of_mem hs
  have hpad : to_cp437 (padTo w fill s) =
      Except.ok (bs ++ List.replicate (w - s.length) fb) := by
    unfold padTo
    exact to_cp437_append_ok hbs (to_cp437_replicate hfb _)
  have henc := (@encPad_ok w fill s hfm hs).1
  rw [hpad] at henc
  injection henc with h2
  rw [hbs]
  show Except.ok (padBytes w fb bs) = Except.ok (encPad w fill s)
  unfold padBytes
  rw [hlen, h2]

theorem spec_fields_eq {m : Meta} (hTe : Encodable m.title) (hAe : Encodable m.author)
    (hGe : Encodable m.group) (hDe : Encodable m.date) (hFe : Encodable m.font) :
    spec_fields m = Except.ok
      (encPad 35 spChar m.title ++ encPad 20 spChar m.author ++ encPad 20 spChar m.group ++
       encPad 8 spChar m.date ++ leBytes 4 m.size ++ [m.type.1 % 256, m.type.2 % 256] ++
       leBytes 2 m.width ++ leBytes 2 m.height ++ leBytes 4 0 ++
       [m.notes.length % 256] ++ [m.flags % 256] ++ encPad 22 nulChar m.font) := by
  unfold spec_fields spec_field
  rw [spec_pad_eq spChar_mem spChar_code hTe 35, except_bind_ok,
    spec_pad_eq spChar_mem spChar_code hAe 20, except_bind_ok,
    spec_pad_eq spChar_mem spChar_code hGe 20, except_bind_ok,
    spec_pad_eq spChar_mem spChar_code hDe 8, except_bind_ok,
    spec_pad_eq nulChar_mem nulChar_code hFe 22, except_bind_ok]
  rfl

theorem spec_notes_mapM {notes : List (List Char)} (h : ∀ note ∈ notes, Encodable note) :
    notes.mapM (fun n => (to_cp437 n).map (padBytes 64 0x20)) =
      Except.ok (notes.map (encPad 64 spChar)) := by
  induction notes with
  | nil => rfl
  | cons n t ih =>
    rw [List.mapM_cons, spec_pad_eq spChar_mem spChar_code (h n (List.mem_cons_self _ _)) 64,
      ih (fun x hx => h x (List.mem_cons_of_mem _ hx))]
    rfl

theorem spec_notes_eq {m : Meta} (h : ∀ note ∈ m.notes, Encodable note) :
    spec_notes m = Except.ok ((m.notes.map (encPad 64 spChar)).flatten) := by
  unfold spec_notes
  rw [spec_notes_mapM h]
  rfl

theorem check_encodable_fields {m : Meta} (hchk : check (some m) = Except.ok ()) :
    Encodable m.title ∧ Encodable m.author ∧ Encodable m.group ∧ Encodable m.date ∧
    Encodable m.font ∧ ∀ note ∈ m.notes, Encodable note := by
  obtain ⟨hcT, hcA, hcG, hcD, _, _, hcF, hcN⟩ := check_ok_parts hchk
  simp only [check_title] at hcT
  simp only [check_author] at hcA
  simp only [check_group] at hcG
  obtain ⟨_, _, hTe⟩ := check_str_facts hcT
  obtain ⟨_, _, hAe⟩ := check_str_facts hcA
  obtain ⟨_, _, hGe⟩ := check_str_facts hcG
  obtain ⟨hDe, _⟩ := check_date_encodable hcD
  have hFe : Encodable m.font := by
    rcases check_font_cases hcF with hf | hf | hf <;> rw [hf] <;> decide
  obtain ⟨_, hNall⟩ := check_notes_facts hcN
  refine ⟨hTe, hAe, hGe, hDe, hFe, ?_⟩
  intro note hnote
  obtain ⟨j, hj, hget⟩ := List.mem_iff_getElem.1 hnote
  have hcn := hNall j hj
  simp only [check_note] at hcn
  obtain ⟨_, _, he⟩ := check_str_facts hcn
  rw [List.getD_eq_getElem _ _ hj, hget] at he
  exact he

/-- C1: for a `Meta` that passes the aggregate `check`, fits the integer
field widths, and whose text fields and notes carry no leading or trailing
spaces, serializing after an arbitrary body and then locating and parsing
the trailing record yields the same `Meta` back. -/
theorem c1_roundtrip_amended (body : List Nat) (m : Meta)
    (hchk : check (some m) = Except.ok ())
    (hsize : m.size < 2 ^ 32) (hwd : m.width < 2 ^ 16) (hht : m.height < 2 ^ 16)
    (hfl : m.flags < 256) (ht1 : m.type.1 < 256) (ht2 : m.type.2 < 256)
    (hti : trimCh spChar m.title = m.title) (hau : trimCh spChar m.author = m.author)
    (hgr : trimCh spChar m.group = m.group) (hda : trimCh spChar m.date = m.date)
    (hno : ∀ s ∈ m.notes, trimCh spChar s = s) :
    write_meta m = Except.ok (sauceRecord m) ∧
    read (body ++ sauceRecord m) = Except.ok (some m) := by
  obtain ⟨hTe, hAe, hGe, hDe, hFe, hNe⟩ := check_encodable_fields hchk
  exact ⟨write_meta_ok hTe hAe hGe hDe hFe hNe,
    sauce_roundtrip_core body m hchk hsize hwd hht hfl ht1 ht2 hti hau hgr hda hno⟩

set_option maxRecDepth 40000
set_option maxHeartbeats 4000000

/-- `mC1c` passes validation, yet parsing its own serialized record does not
return it: the trailing space of its title is trimmed away by the parser. -/
theorem c1_counterexample :
    check (some mC1c) = Except.ok () ∧
    write_meta mC1c = Except.ok (sauceRecord mC1c) ∧
    read (sauceRecord mC1c) ≠ Except.ok (some mC1c) := by decide

set_option maxRecDepth 40000
set_option maxHeartbeats 4000000

/-- The C1 round trip at the concrete metadata value `mC1w` after a
one-byte body. -/
theorem c1_witness :
    write_meta mC1w = Except.ok (sauceRecord mC1w) ∧
    read ([0x42] ++ sauceRecord mC1w) = Except.ok (some mC1w) :=
  c1_roundtrip_amended [0x42] mC1w (by decide) (by decide) (by decide) (by decide)
    (by decide) (by decide) (by decide) (by decide) (by decide) (by decide) (by decide)
    (by decide)

/-- C2: for a validated `Meta`, the serializer emits exactly the amended
layout: a single `0x1A`, then the optional `COMNT` block (each note
CP437-encoded and space-padded to 64 bytes), then `SAUCE00` and the
fixed-width field block, with no second `0x1A` in between. -/
theorem c2_layout_amended (m : Meta) (hchk : check (some m) = Except.ok ()) :
    write_meta m = amended_layout_C2 m := by
  obtain ⟨hTe, hAe, hGe, hDe, hFe, hNe⟩ := check_encodable_fields hchk
  rw [write_meta_ok hTe hAe hGe hDe hFe hNe]
  unfold amended_layout_C2
  rw [spec_notes_eq hNe, except_bind_ok, spec_fields_eq hTe hAe hGe hDe hFe,
    except_bind_ok, except_pure_eq]
  simp [sauceRecord, List.append_assoc]

set_option maxRecDepth 40000
set_option maxHeartbeats 4000000

/-- `mC2` passes validation, yet the serializer's output differs from the
layout worded in claim C2: no `0x1A` is written between the comment block
and `SAUCE00`. -/
theorem c2_counterexample :
    check (some mC2) = Except.ok () ∧ write_meta mC2 ≠ claim_layout_C2 mC2 := by decide

/-- The amended C2 layout at the concrete metadata value `mC2`. -/
theorem c2_witness : write_meta mC2 = amended_layout_C2 mC2 :=
  c2_layout_amended mC2 (by decide)

end Cp437Tools
